import Mathlib

/-!
# tokenclone: a verification development

A shallow embedding of `main.go` (the GitHub-App clone utility) and proofs
about its URL parsing, flag validation, JWT claim construction, installation
selection and the order of its external calls.

Modelling conventions.

* A Go `string` is a `Str`: one list element stands for one byte of the Go
  string.  The program only compares, slices and concatenates strings, and
  every separator, prefix and suffix it uses is ASCII.  (`Split` and `Count`
  with an empty separator, which count UTF-8 sequences in Go, are never
  reached by the program.)
* A Go `error` is a `GoError` carrying the text of its `Error()` method, the
  only thing the program reads from an error (through the `%v` verb).  A `nil`
  error, pointer or response is `none`.
* The operating system and the network are an `Env`: one response function
  per library call.  A run records every library call it makes, with its
  arguments, in `calls`, in program order.  No run makes the same call twice
  (`main_calls_ord`), so an answer that is a function of the arguments loses
  nothing against one that depends on the history.
* A Go `time.Time` is a `Time` with the two fields `wall` and `ext` of the Go
  struct, and `Add` and `Unix` follow `time.go`: seconds are counted from
  year 1, `int64` sums wrap, and `addSec` stops at the largest and smallest
  time.
* `log.Fatalf` appends its text to `stderr` and ends the run with exit
  status 1, `log.Printf` appends its text to `stderr`, `fmt.Println` and
  `fmt.Printf` append to `stdout`.  The date and time the standard logger puts
  in front of a line are left out.
-/

namespace TokenClone

/-! ## Strings (`strings` package of the Go standard library) -/

/-- A Go string. -/
abbrev Str := List Char

/-- The Go function `strings.HasPrefix`:
`len(s) >= len(prefix) && s[:len(prefix)] == prefix`. -/
def HasPrefix (s pre : Str) : Bool :=
  decide (pre.length ≤ s.length) && decide (s.take pre.length = pre)

/-- The Go function `strings.HasSuffix`:
`len(s) >= len(suffix) && s[len(s)-len(suffix):] == suffix`. -/
def HasSuffix (s suf : Str) : Bool :=
  decide (suf.length ≤ s.length) && decide (s.drop (s.length - suf.length) = suf)

/-- The Go function `strings.TrimPrefix`: `s` without the leading `pre`,
or `s` itself when it does not start with `pre`. -/
def TrimPrefix (s pre : Str) : Str :=
  if HasPrefix s pre then s.drop pre.length else s

/-- The Go function `strings.TrimSuffix`: `s` without the trailing `suf`,
or `s` itself when it does not end with `suf`. -/
def TrimSuffix (s suf : Str) : Str :=
  if HasSuffix s suf then s.take (s.length - suf.length) else s

/-- The Go function `strings.Index`: the index of the first instance of
`substr` in `s`; `none` stands for the `-1` of Go. -/
def Index : Str → Str → Option Nat
  | [], substr => if HasPrefix [] substr then some 0 else none
  | c :: t, substr =>
    if HasPrefix (c :: t) substr then some 0
    else (Index t substr).map (· + 1)

/-- The loop of `strings.Count` for a separator of two or more bytes, with the
length of the string as a bound on the number of rounds. -/
def countLoop : Nat → Str → Str → Nat
  | 0, _, _ => 0
  | fuel + 1, s, substr =>
    match Index s substr with
    | none => 0
    | some i => countLoop fuel (s.drop (i + substr.length)) substr + 1

/-- The Go function `strings.Count`: the number of non-overlapping instances
of `substr` in `s`; one more than the length of `s` for an empty `substr`. -/
def Count (s substr : Str) : Nat :=
  match substr with
  | [] => s.length + 1
  | [b] => s.count b
  | _ => countLoop s.length s substr

/-- The loop of `genSplit`: `n` is the number of separators still to cut at
(`for i < n`), and the rest of the string is the last piece. -/
def genSplitLoop : Nat → Str → Str → List Str
  | 0, s, _ => [s]
  | n + 1, s, sep =>
    match Index s sep with
    | none => [s]
    | some m => s.take m :: genSplitLoop n (s.drop (m + sep.length)) sep

/-- The Go function `strings.Split` (`genSplit(s, sep, 0, -1)`): an empty
separator explodes the string into its elements, otherwise the string is cut
at each of its `Count(s, sep)` separators. -/
def Split (s sep : Str) : List Str :=
  if sep = [] then s.map (fun c => [c])
  else genSplitLoop (Count s sep) s sep

/-! ## Values exchanged with the libraries -/

/-- A Go `error`: the text its `Error()` method returns. -/
structure GoError where
  msg : Str
deriving DecidableEq

/-- The contents of a file, a Go `[]byte`. -/
abbrev Bytes := List (Fin 256)

/-- The Go type `rsa.PrivateKey`. -/
structure PrivateKey where
  N : Nat
  E : Nat
  D : Nat
  Primes : List Nat
deriving DecidableEq

/-- Reduction of an integer to the range of a Go `int64` (two's complement). -/
def wrap64 (x : Int) : Int := (x + 2 ^ 63) % 2 ^ 64 - 2 ^ 63

/-- A Go `time.Duration`: a number of nanoseconds, an `int64`. -/
abbrev Duration := Int

/-- The Go constant `time.Minute`. -/
def Minute : Duration := 60 * 1000000000

/-- The Go constant `hasMonotonic` of package `time`: bit 63 of `wall`. -/
def hasMonotonic : Nat := 2 ^ 63

/-- The Go constant `unixToInternal`: the seconds from 1 January of year 1 to
1 January 1970. -/
def unixToInternal : Int := (1969 * 365 + 1969 / 4 - 1969 / 100 + 1969 / 400) * 86400

/-- The Go constant `internalToUnix`. -/
def internalToUnix : Int := -unixToInternal

/-- The Go constant `wallToInternal`: the seconds from 1 January of year 1 to
1 January 1885. -/
def wallToInternal : Int := (1884 * 365 + 1884 / 4 - 1884 / 100 + 1884 / 400) * 86400

/-- The Go type `time.Time` without its location: `wall` is a `uint64`, `ext`
an `int64`.  With bit 63 of `wall` set, bits 30 to 62 of `wall` hold the
seconds since 1885 and `ext` the monotonic clock reading; with it clear, `ext`
holds the seconds since year 1.  The low 30 bits of `wall` are the
nanoseconds. -/
structure Time where
  wall : Nat
  ext : Int
deriving DecidableEq

/-- The Go test `t.wall&hasMonotonic != 0`. -/
def Time.hasMono (t : Time) : Bool := decide (t.wall / 2 ^ 63 % 2 = 1)

/-- The Go method `(*Time).nsec`: `int32(t.wall & nsecMask)`, with
`nsecMask = 1<<30 - 1`. -/
def Time.nsec (t : Time) : Int := ((t.wall % 2 ^ 30 : Nat) : Int)

/-- The seconds field of `wall`: `int64(t.wall << 1 >> (nsecShift + 1))` on a
`uint64`, with `nsecShift = 30`. -/
def Time.wallSec (t : Time) : Int := ((t.wall * 2 % 2 ^ 64 / 2 ^ 31 : Nat) : Int)

/-- The Go method `(*Time).sec`: the seconds since 1 January of year 1. -/
def Time.sec (t : Time) : Int :=
  if t.hasMono then wrap64 (wallToInternal + t.wallSec) else t.ext

/-- The Go method `(*Time).unixSec`: `t.sec() + internalToUnix`. -/
def Time.unixSec (t : Time) : Int := wrap64 (t.sec + internalToUnix)

/-- The Go method `(*Time).stripMono`: `t.ext = t.sec()` and
`t.wall &= nsecMask` when the monotonic bit is set. -/
def Time.stripMono (t : Time) : Time :=
  if t.hasMono then { wall := t.wall % 2 ^ 30, ext := t.sec } else t

/-- The end of the Go method `(*Time).addSec`: `d` is added to `ext`, and a
sum that overflows the `int64` is replaced by the largest or smallest time. -/
def Time.addExt (t : Time) (d : Int) : Time :=
  let sum := wrap64 (t.ext + d)
  if decide (sum > t.ext) = decide (d > 0) then { t with ext := sum }
  else if d > 0 then { t with ext := 2 ^ 63 - 1 }
  else { t with ext := -(2 ^ 63 - 1) }

/-- The Go method `(*Time).addSec`: with the monotonic bit set the seconds of
`wall` are updated when the sum fits their 33 bits
(`t.wall&nsecMask | uint64(dsec)<<nsecShift | hasMonotonic`), otherwise the
monotonic reading is stripped and `d` is added to `ext`. -/
def Time.addSec (t : Time) (d : Int) : Time :=
  if t.hasMono then
    let sec := t.wallSec
    let dsec := wrap64 (sec + d)
    if 0 ≤ dsec ∧ dsec ≤ 2 ^ 33 - 1 then
      { t with wall := t.wall % 2 ^ 30 + dsec.toNat * 2 ^ 30 + hasMonotonic }
    else t.stripMono.addExt d
  else t.addExt d

/-- The Go method `Time.Add`, for a duration `d` in the range of an `int64`:
whole seconds and nanoseconds of `d` are split (division truncates), a
nanosecond count outside `[0, 1e9)` carries into the seconds, the nanoseconds
are stored (`t.wall&^nsecMask | uint64(nsec)`), the seconds are added by
`addSec`, and a monotonic reading is moved by `d` or stripped when that
overflows. -/
def Time.Add (t : Time) (d : Duration) : Time :=
  let dsec0 : Int := Int.tdiv d 1000000000
  let nsec0 : Int := t.nsec + Int.tmod d 1000000000
  let dsec : Int :=
    if 1000000000 ≤ nsec0 then dsec0 + 1 else if nsec0 < 0 then dsec0 - 1 else dsec0
  let nsec : Int :=
    if 1000000000 ≤ nsec0 then nsec0 - 1000000000
    else if nsec0 < 0 then nsec0 + 1000000000 else nsec0
  let t1 : Time := { t with wall := t.wall - t.wall % 2 ^ 30 + nsec.toNat }
  let t2 := t1.addSec dsec
  if t2.hasMono then
    let te := wrap64 (t2.ext + d)
    if (d < 0 ∧ te > t2.ext) ∨ (d > 0 ∧ te < t2.ext) then t2.stripMono
    else { t2 with ext := te }
  else t2

/-- The Go method `Time.Unix`: seconds since the Unix epoch. -/
def Time.Unix (t : Time) : Int := t.unixSec

/-- The type `jwt.StandardClaims` of `dgrijalva/jwt-go`, all seven registered
claims; a field left out of a struct literal has its zero value. -/
structure StandardClaims where
  Audience : Str
  ExpiresAt : Int
  Id : Str
  IssuedAt : Int
  Issuer : Str
  NotBefore : Int
  Subject : Str
deriving DecidableEq

/-- A `*github.Client` built by `github.NewClient(oauth2.NewClient(ctx, ts))`
over a static token source: what tells two such clients apart is the access
token they send. -/
structure Client where
  AccessToken : Str
deriving DecidableEq

/-- The type `github.Installation`, the field the program reads. -/
structure Installation where
  ID : Option Int
deriving DecidableEq

/-- The Go method `(*Installation).GetID`: zero for a nil installation or a
nil `ID`. -/
def Installation.GetID : Option Installation → Int
  | some i => i.ID.getD 0
  | none => 0

/-- The type `github.InstallationToken`, the field the program reads. -/
structure InstallationToken where
  Token : Option Str
deriving DecidableEq

/-- The Go method `(*InstallationToken).GetToken`: the empty string for a nil
token or a nil `Token`. -/
def InstallationToken.GetToken : Option InstallationToken → Str
  | some t => t.Token.getD []
  | none => []

/-- The type `github.Repository`, the fields the program reads. -/
structure Repository where
  Name : Option Str
  FullName : Option Str
  CloneURL : Option Str
deriving DecidableEq

/-- The Go method `(*Repository).GetName`. -/
def Repository.GetName : Option Repository → Str
  | some r => r.Name.getD []
  | none => []

/-- The Go method `(*Repository).GetFullName`. -/
def Repository.GetFullName : Option Repository → Str
  | some r => r.FullName.getD []
  | none => []

/-- The Go method `(*Repository).GetCloneURL`. -/
def Repository.GetCloneURL : Option Repository → Str
  | some r => r.CloneURL.getD []
  | none => []

/-- The type `github.Response`, the field the program reads. -/
structure Response where
  StatusCode : Int
deriving DecidableEq

/-- The type `http.BasicAuth` of go-git. -/
structure BasicAuth where
  Username : Str
  Password : Str
deriving DecidableEq

/-- The type `git.CloneOptions`, the fields the program sets. -/
structure CloneOptions where
  URL : Str
  Auth : BasicAuth
deriving DecidableEq

/-! ## Library calls and the environment -/

/-- A library call made by a run, with its arguments. -/
inductive Call where
  | ReadFile (name : Str)
  | ParseRSAPrivateKeyFromPEM (key : Bytes)
  | Now
  | SignedString (claims : StandardClaims) (key : Option PrivateKey)
  | ListInstallations (client : Client)
  | CreateInstallationToken (client : Client) (id : Int)
  | RepositoriesGet (client : Client) (owner repo : Str)
  | PlainClone (path : Str) (isBare : Bool) (o : CloneOptions)
deriving DecidableEq

/-- The calls that leave the process: the read of the key file and the
requests to the GitHub API and to the git server.  Parsing the key, reading
the clock and signing are computed in the process. -/
def Call.isOutside : Call → Bool
  | .ReadFile _ => true
  | .ParseRSAPrivateKeyFromPEM _ => false
  | .Now => false
  | .SignedString _ _ => false
  | .ListInstallations _ => true
  | .CreateInstallationToken _ _ => true
  | .RepositoriesGet _ _ _ => true
  | .PlainClone _ _ _ => true

/-- The position of a call in the program text of `main`. -/
def Call.ord : Call → Nat
  | .ReadFile _ => 1
  | .ParseRSAPrivateKeyFromPEM _ => 2
  | .Now => 3
  | .SignedString _ _ => 4
  | .ListInstallations _ => 5
  | .CreateInstallationToken _ _ => 6
  | .RepositoriesGet _ _ _ => 7
  | .PlainClone _ _ _ => 8

/-- What the world outside the program answers to each library call.  The
`*github.Response` of the two `Apps` calls is dropped by the program (`_`) and
left out here. -/
structure Env where
  ReadFile : Str → Bytes × Option GoError
  ParseRSAPrivateKeyFromPEM : Bytes → Option PrivateKey × Option GoError
  Now : Time
  SignedString : StandardClaims → Option PrivateKey → Str × Option GoError
  ListInstallations : Client → List (Option Installation) × Option GoError
  CreateInstallationToken : Client → Int → Option InstallationToken × Option GoError
  RepositoriesGet : Client → Str → Str → Option Repository × Option Response × Option GoError
  PlainClone : Str → Bool → CloneOptions → Option GoError

/-- Whether the environment answers a call with a non-nil error. -/
def Env.failed (env : Env) : Call → Bool
  | .ReadFile name => (env.ReadFile name).2.isSome
  | .ParseRSAPrivateKeyFromPEM key => (env.ParseRSAPrivateKeyFromPEM key).2.isSome
  | .Now => false
  | .SignedString claims key => (env.SignedString claims key).2.isSome
  | .ListInstallations client => (env.ListInstallations client).2.isSome
  | .CreateInstallationToken client id => (env.CreateInstallationToken client id).2.isSome
  | .RepositoriesGet client owner repo => (env.RepositoriesGet client owner repo).2.2.isSome
  | .PlainClone path isBare o => (env.PlainClone path isBare o).isSome

/-- What a run has done so far: the library calls it made, the lines it logged
and the lines it printed, each oldest first. -/
structure World where
  calls : List Call
  stderr : List Str
  stdout : List Str
deriving DecidableEq

/-- The state at the start of a run. -/
def World.start : World := { calls := [], stderr := [], stdout := [] }

/-- Record a library call. -/
def World.call (w : World) (c : Call) : World := { w with calls := w.calls ++ [c] }

/-- The Go function `log.Printf`: one more line on standard error. -/
def World.Printf (w : World) (line : Str) : World := { w with stderr := w.stderr ++ [line] }

/-- The Go functions `fmt.Println` and `fmt.Printf` with a format ending in a
newline: one more line on standard output. -/
def World.Println (w : World) (line : Str) : World := { w with stdout := w.stdout ++ [line] }

/-- The Go function `log.Fatalf`: `log.Printf` followed by `os.Exit(1)`. -/
def World.Fatalf (w : World) (line : Str) : World × Nat := (w.Printf line, 1)

/-- How a call of a Go function ends: it returns its results, or the Go
run time stops it with a panic (here: a slice index out of range). -/
inductive Ret (α : Type) where
  | ok (results : α)
  | panicked
deriving DecidableEq

/-! ## The program (`main.go`) -/

/-- The claims literal of `generateJWT`: issuer, issued-at and expiry are set,
the four other registered claims keep their zero values. -/
def generateJWTClaims (appID : Str) (now : Time) : StandardClaims :=
  { Audience := []
    ExpiresAt := (now.Add (wrap64 (Minute * 10))).Unix
    Id := []
    IssuedAt := now.Unix
    Issuer := appID
    NotBefore := 0
    Subject := [] }

/-- The Go function `generateJWT`: read the clock, build the claims, sign them
with RS256; the empty string and the error when signing fails. -/
def generateJWT (env : Env) (appID : Str) (key : Option PrivateKey) (w : World) :
    (Str × Option GoError) × World :=
  let now := env.Now
  let w := w.call .Now
  let claims := generateJWTClaims appID now
  let r := env.SignedString claims key
  let w := w.call (.SignedString claims key)
  match r.2 with
  | some err => (([], some err), w)
  | none => ((r.1, none), w)

/-- The Go function `getGitHubClient`: a client that sends `jwtToken`. -/
def getGitHubClient (jwtToken : Str) : Client := { AccessToken := jwtToken }

/-- The Go function `getInstallationID`: the ID of the first installation the
API lists.  `installations[0]` is a slice index, which panics when out of
range. -/
def getInstallationID (env : Env) (client : Client) (w : World) :
    Ret (Int × Option GoError) × World :=
  let r := env.ListInstallations client
  let w := w.call (.ListInstallations client)
  let installations := r.1
  match r.2 with
  | some err => (.ok (0, some err), w)
  | none =>
    if installations.length = 0 then
      (.ok (0, some { msg := "no installations found".toList }), w)
    else
      match installations[0]? with
      | some first => (.ok (Installation.GetID first, none), w)
      | none => (.panicked, w)

/-- The Go function `getInstallationToken`. -/
def getInstallationToken (env : Env) (client : Client) (installationID : Int) (w : World) :
    (Str × Option GoError) × World :=
  let r := env.CreateInstallationToken client installationID
  let w := w.call (.CreateInstallationToken client installationID)
  match r.2 with
  | some err => (([], some err), w)
  | none => ((InstallationToken.GetToken r.1, none), w)

/-- The Go function `checkRepoAccess`: owner and repository name are cut out
of the URL, then the repository is looked up with a client that sends the
installation token (the client passed in is overwritten).  `repoParts[0]` and
`repoParts[1]` are slice indices, which panic when out of range. -/
def checkRepoAccess (env : Env) (_client : Client) (token repoURL : Str) (w : World) :
    Ret (Option Repository × Option GoError) × World :=
  let repoParts := Split (TrimPrefix repoURL "https://github.com/".toList) "/".toList
  if repoParts.length ≠ 2 then
    (.ok (none, some { msg := "invalid repository URL format: ".toList ++ repoURL }), w)
  else
    match repoParts[0]?, repoParts[1]? with
    | some part0, some part1 =>
      let owner := part0
      let repo := TrimSuffix part1 ".git".toList
      let client : Client := { AccessToken := token }
      let r := env.RepositoriesGet client owner repo
      let w := w.call (.RepositoriesGet client owner repo)
      let resp := r.2.1
      match r.2.2 with
      | some err =>
        let notFound : Bool :=
          match resp with
          | some resp => decide (resp.StatusCode = 404)
          | none => false
        let w :=
          if notFound then
            w.Printf ("Repository ".toList ++ owner ++ "/".toList ++ repo ++ " not found".toList)
          else
            w.Printf ("Error accessing repository: ".toList ++ err.msg)
        (.ok (none, some err), w)
      | none => (.ok (r.1, none), w)
    | _, _ => (.panicked, w)

/-- The Go function `printRepoDetails`. -/
def printRepoDetails (repo : Option Repository) (w : World) : World :=
  let w := w.Println "Repository Details:".toList
  let w := w.Println ("Name: ".toList ++ Repository.GetName repo)
  let w := w.Println ("Full Name: ".toList ++ Repository.GetFullName repo)
  w.Println ("Clone URL: ".toList ++ Repository.GetCloneURL repo)

/-- The Go function `cloneRepo`: a non-bare clone over HTTPS with the token as
password. -/
def cloneRepo (env : Env) (repoURL cloneDir token : Str) (w : World) : Option GoError × World :=
  let o : CloneOptions :=
    { URL := repoURL, Auth := { Username := "x-access-token".toList, Password := token } }
  (env.PlainClone cloneDir false o, w.call (.PlainClone cloneDir false o))

/-- The condition of the first `if` of the command: some flag is empty. -/
def flagMissing (appID privateKeyPath repoURL cloneDir : Str) : Bool :=
  decide (appID = []) || decide (privateKeyPath = []) || decide (repoURL = []) ||
    decide (cloneDir = [])

/-- The text logged when a flag is missing. -/
def flagsRequired : Str :=
  "All flags --app_id, --pem_path, --repo_url, and --clone_dir are required".toList

/-- The line printed at the end of a run without error. -/
def clonedSuccessfully : Str := "Repository cloned successfully".toList

/-- The `Run` function of the command built in `main`, on the values of the
four flags; the result is the final state and the exit status of the process:
0 when `Run` returns, 1 after `log.Fatalf`, 2 after a run-time panic. -/
def main (env : Env) (appID privateKeyPath repoURL cloneDir : Str) (w : World) : World × Nat :=
  if flagMissing appID privateKeyPath repoURL cloneDir then
    w.Fatalf flagsRequired
  else
    let r := env.ReadFile privateKeyPath
    let w := w.call (.ReadFile privateKeyPath)
    match r.2 with
    | some err => w.Fatalf ("Error reading private key: ".toList ++ err.msg)
    | none =>
    let privateKey := r.1
    let r := env.ParseRSAPrivateKeyFromPEM privateKey
    let w := w.call (.ParseRSAPrivateKeyFromPEM privateKey)
    match r.2 with
    | some err => w.Fatalf ("Error parsing private key: ".toList ++ err.msg)
    | none =>
    let signKey := r.1
    match generateJWT env appID signKey w with
    | ((_, some err), w) => w.Fatalf ("Error generating JWT: ".toList ++ err.msg)
    | ((jwtToken, none), w) =>
    let client := getGitHubClient jwtToken
    match getInstallationID env client w with
    | (.panicked, w) => (w, 2)
    | (.ok (_, some err), w) => w.Fatalf ("Error fetching installation ID: ".toList ++ err.msg)
    | (.ok (installationID, none), w) =>
    match getInstallationToken env client installationID w with
    | ((_, some err), w) => w.Fatalf ("Error generating installation token: ".toList ++ err.msg)
    | ((installationToken, none), w) =>
    match checkRepoAccess env client installationToken repoURL w with
    | (.panicked, w) => (w, 2)
    | (.ok (_, some err), w) => w.Fatalf ("Error accessing repository: ".toList ++ err.msg)
    | (.ok (repo, none), w) =>
    let w := printRepoDetails repo w
    match cloneRepo env repoURL cloneDir installationToken w with
    | (some err, w) => w.Fatalf ("Error cloning repository: ".toList ++ err.msg)
    | (none, w) => (w.Println clonedSuccessfully, 0)

/-! ## Names used in the statements -/

/-- The prefix `checkRepoAccess` removes from the URL. -/
def githubPrefix : Str := "https://github.com/".toList

/-- The error of `checkRepoAccess` for a URL that is not cut into two parts. -/
def invalidFormat (repoURL : Str) : GoError :=
  { msg := "invalid repository URL format: ".toList ++ repoURL }

/-- The state `checkRepoAccess` leaves after an error of the lookup. -/
def afterLookupError (w : World) (token owner repo : Str) (resp : Option Response)
    (err : GoError) : World :=
  let w := w.call (.RepositoriesGet { AccessToken := token } owner repo)
  match resp with
  | some r =>
    if r.StatusCode = 404 then
      w.Printf ("Repository ".toList ++ owner ++ "/".toList ++ repo ++ " not found".toList)
    else w.Printf ("Error accessing repository: ".toList ++ err.msg)
  | none => w.Printf ("Error accessing repository: ".toList ++ err.msg)

/-! ### The values a run hands from one step to the next -/

/-- The contents of the key file. -/
def keyOf (env : Env) (privateKeyPath : Str) : Bytes := (env.ReadFile privateKeyPath).1

/-- The key parsed from the key file. -/
def signKeyOf (env : Env) (privateKeyPath : Str) : Option PrivateKey :=
  (env.ParseRSAPrivateKeyFromPEM (keyOf env privateKeyPath)).1

/-- The signed JWT. -/
def jwtOf (env : Env) (appID privateKeyPath : Str) : Str :=
  (env.SignedString (generateJWTClaims appID env.Now) (signKeyOf env privateKeyPath)).1

/-- The client that sends the JWT. -/
def appClientOf (env : Env) (appID privateKeyPath : Str) : Client :=
  getGitHubClient (jwtOf env appID privateKeyPath)

/-- The installations the API lists. -/
def installationsOf (env : Env) (appID privateKeyPath : Str) : List (Option Installation) :=
  (env.ListInstallations (appClientOf env appID privateKeyPath)).1

/-- The ID of the first installation listed. -/
def installationIDOf (env : Env) (appID privateKeyPath : Str) : Int :=
  Installation.GetID ((installationsOf env appID privateKeyPath).headD none)

/-- The installation token. -/
def tokenOf (env : Env) (appID privateKeyPath : Str) : Str :=
  InstallationToken.GetToken
    (env.CreateInstallationToken (appClientOf env appID privateKeyPath)
      (installationIDOf env appID privateKeyPath)).1

/-- The parts the URL is cut into. -/
def partsOf (repoURL : Str) : List Str := Split (TrimPrefix repoURL githubPrefix) "/".toList

/-- The options of the clone. -/
def cloneOptionsOf (env : Env) (appID privateKeyPath repoURL : Str) : CloneOptions :=
  { URL := repoURL
    Auth := { Username := "x-access-token".toList, Password := tokenOf env appID privateKeyPath } }

/-- The eight library calls of a run that meets no error, in order. -/
def course (env : Env) (appID privateKeyPath repoURL cloneDir : Str) : List Call :=
  [ .ReadFile privateKeyPath,
    .ParseRSAPrivateKeyFromPEM (keyOf env privateKeyPath),
    .Now,
    .SignedString (generateJWTClaims appID env.Now) (signKeyOf env privateKeyPath),
    .ListInstallations (appClientOf env appID privateKeyPath),
    .CreateInstallationToken (appClientOf env appID privateKeyPath)
      (installationIDOf env appID privateKeyPath),
    .RepositoriesGet { AccessToken := tokenOf env appID privateKeyPath }
      ((partsOf repoURL).getD 0 []) (TrimSuffix ((partsOf repoURL).getD 1 []) ".git".toList),
    .PlainClone cloneDir false (cloneOptionsOf env appID privateKeyPath repoURL) ]

/-- The repository a successful lookup returns. -/
def repositoryOf (env : Env) (appID privateKeyPath repoURL : Str) : Option Repository :=
  (env.RepositoriesGet { AccessToken := tokenOf env appID privateKeyPath }
    ((partsOf repoURL).getD 0 []) (TrimSuffix ((partsOf repoURL).getD 1 []) ".git".toList)).1

/-- The four lines `printRepoDetails` prints. -/
def detailsOf (repo : Option Repository) : List Str :=
  [ "Repository Details:".toList,
    "Name: ".toList ++ Repository.GetName repo,
    "Full Name: ".toList ++ Repository.GetFullName repo,
    "Clone URL: ".toList ++ Repository.GetCloneURL repo ]

/-- A small RSA key. -/
def demoKey : PrivateKey := { N := 3233, E := 17, D := 413, Primes := [61, 53] }

/-- An environment in which every call succeeds: a key file, a key, a clock at
Unix second 1700000000 (with a monotonic reading, as `time.Now` returns it
until 2157: 4382288000 seconds since 1885 in `wall`), a signed token, two
installations, an installation token, a repository, a clone. -/
def envAllGood : Env :=
  { ReadFile := fun _ => ([45, 45], none)
    ParseRSAPrivateKeyFromPEM := fun _ => (some demoKey, none)
    Now := { wall := 2 ^ 63 + 4382288000 * 2 ^ 30 + 5, ext := 1000000 }
    SignedString := fun _ _ => ("jwt".toList, none)
    ListInstallations := fun _ => ([some { ID := some 42 }, some { ID := some 7 }], none)
    CreateInstallationToken := fun _ _ => (some { Token := some "ghs_tok".toList }, none)
    RepositoriesGet := fun _ _ _ =>
      (some { Name := some "repo".toList, FullName := some "owner/repo".toList,
              CloneURL := some "https://github.com/owner/repo.git".toList }, some { StatusCode := 200 }, none)
    PlainClone := fun _ _ _ => none }

/-- An environment whose clock reads Unix second 9223371974719178707, which is
301 seconds before the largest Go time (second `2 ^ 63 - 1` since year 1).
`time.Now` returns so late a time without a monotonic reading: `wall` holds
the nanoseconds and `ext` the seconds since year 1. -/
def envLateClock : Env :=
  { envAllGood with Now := { wall := 5, ext := 9223372036854775507 } }

/-- An environment in which the repository lookup answers 404 with an error. -/
def envNotFound : Env :=
  { envAllGood with
    RepositoriesGet := fun _ _ _ => (none, some { StatusCode := 404 }, some { msg := "404 Not Found".toList }) }

/-! ## The model at work -/

set_option maxRecDepth 100000 in
/-- A run in which every call succeeds: eight calls, four lines of repository
details and the success line, exit status 0. -/
theorem main_envAllGood :
    main envAllGood "12345".toList "key.pem".toList "https://github.com/owner/repo.git".toList
      "dir".toList World.start =
      ({ calls := course envAllGood "12345".toList "key.pem".toList
           "https://github.com/owner/repo.git".toList "dir".toList
         stderr := []
         stdout := [ "Repository Details:".toList, "Name: repo".toList,
           "Full Name: owner/repo".toList,
           "Clone URL: https://github.com/owner/repo.git".toList,
           "Repository cloned successfully".toList ] }, 0) := by
  decide

set_option maxRecDepth 100000 in
/-- A run in which the lookup answers 404: seven calls, the not-found line and
the fatal line, exit status 1. -/
theorem main_envNotFound :
    main envNotFound "12345".toList "key.pem".toList "owner/repo".toList "dir".toList
      World.start =
      ({ calls := (course envNotFound "12345".toList "key.pem".toList "owner/repo".toList
           "dir".toList).take 7
         stderr := [ "Repository owner/repo not found".toList,
           "Error accessing repository: 404 Not Found".toList ]
         stdout := [] }, 1) := by
  decide

/-- The splits of the Go documentation of `strings.Split`. -/
theorem Split_examples :
    Split "a,b,c".toList ",".toList = ["a".toList, "b".toList, "c".toList] ∧
    Split "a man a plan a canal panama".toList "a ".toList =
      ["".toList, "man ".toList, "plan ".toList, "canal panama".toList] ∧
    Split " xyz ".toList "".toList = [" ".toList, "x".toList, "y".toList, "z".toList, " ".toList] ∧
    Split "".toList "Bernardo".toList = ["".toList] := by
  decide

/-! ## Facts about the string functions -/

theorem HasPrefix_iff (s pre : Str) : HasPrefix s pre = true ↔ pre <+: s := by
  unfold HasPrefix
  rw [Bool.and_eq_true, decide_eq_true_iff, decide_eq_true_iff]
  constructor
  · rintro ⟨_, h⟩
    rw [← h]
    exact List.take_prefix _ _
  · intro h
    refine ⟨h.length_le, ?_⟩
    exact (List.prefix_iff_eq_take.mp h).symm

theorem HasSuffix_iff (s suf : Str) : HasSuffix s suf = true ↔ suf <:+ s := by
  unfold HasSuffix
  rw [Bool.and_eq_true, decide_eq_true_iff, decide_eq_true_iff]
  constructor
  · rintro ⟨_, h⟩
    rw [← h]
    exact List.drop_suffix _ _
  · intro h
    refine ⟨h.length_le, ?_⟩
    exact (List.suffix_iff_eq_drop.mp h).symm

theorem TrimPrefix_append (pre rest : Str) : TrimPrefix (pre ++ rest) pre = rest := by
  have h : HasPrefix (pre ++ rest) pre = true := (HasPrefix_iff _ _).mpr (List.prefix_append _ _)
  simp [TrimPrefix, h]

theorem TrimPrefix_of_no_match (s pre : Str) (h : ¬ pre <+: s) : TrimPrefix s pre = s := by
  have h1 : HasPrefix s pre = false := by
    rw [← Bool.not_eq_true, HasPrefix_iff]
    exact h
  simp [TrimPrefix, h1]

theorem TrimSuffix_append (body suf : Str) : TrimSuffix (body ++ suf) suf = body := by
  have h : HasSuffix (body ++ suf) suf = true := (HasSuffix_iff _ _).mpr (List.suffix_append _ _)
  simp [TrimSuffix, h]

theorem TrimSuffix_of_no_match (s suf : Str) (h : ¬ suf <:+ s) : TrimSuffix s suf = s := by
  have h1 : HasSuffix s suf = false := by
    rw [← Bool.not_eq_true, HasSuffix_iff]
    exact h
  simp [TrimSuffix, h1]

theorem Index_nil_single (c : Char) : Index [] [c] = none := by
  simp [Index, HasPrefix]

theorem Index_cons_single (x c : Char) (t : Str) :
    Index (x :: t) [c] = if x = c then some 0 else (Index t [c]).map (· + 1) := by
  simp [Index, HasPrefix]

/-- The first separator is found right after a piece that holds none. -/
theorem Index_append_single (c : Char) (a b : Str) (ha : c ∉ a) :
    Index (a ++ c :: b) [c] = some a.length := by
  induction a with
  | nil => simp [Index_cons_single]
  | cons x t ih =>
    have hx : x ≠ c := fun h => ha (by simp [h])
    have ht : c ∉ t := fun h => ha (by simp [h])
    simp [Index_cons_single, hx, ih ht]

/-- A string with `n + 1` separators has a first one, and `n` are left after it. -/
theorem Index_of_count_succ (c : Char) (n : Nat) (s : Str) (h : s.count c = n + 1) :
    ∃ m, Index s [c] = some m ∧ (s.drop (m + 1)).count c = n := by
  induction s with
  | nil => simp at h
  | cons x t ih =>
    by_cases hx : x = c
    · subst hx
      refine ⟨0, by simp [Index_cons_single], ?_⟩
      simpa using h
    · have hc : t.count c = n + 1 := by
        rw [List.count_cons_of_ne (Ne.symm hx)] at h
        exact h
      obtain ⟨m, hm, hd⟩ := ih hc
      refine ⟨m + 1, by simp [Index_cons_single, hx, hm], ?_⟩
      simpa using hd

theorem genSplitLoop_single_length (c : Char) (n : Nat) :
    ∀ s : Str, s.count c = n → (genSplitLoop n s [c]).length = n + 1 := by
  induction n with
  | zero => intro s _; simp [genSplitLoop]
  | succ n ih =>
    intro s h
    obtain ⟨m, hm, hd⟩ := Index_of_count_succ c n s h
    simp [genSplitLoop, hm, ih _ hd]

/-- Cutting at a one-element separator gives one piece more than there are
separators. -/
theorem Split_single_length (c : Char) (s : Str) : (Split s [c]).length = s.count c + 1 := by
  simp [Split, Count, genSplitLoop_single_length c (s.count c) s rfl]

/-- A string with exactly one separator is cut into what stands before it and
what stands after it. -/
theorem Split_single_pair (c : Char) (a b : Str) (ha : c ∉ a) (hb : c ∉ b) :
    Split (a ++ c :: b) [c] = [a, b] := by
  have hcount : (a ++ c :: b).count c = 1 := by
    simp [List.count_append, List.count_eq_zero_of_not_mem ha, List.count_eq_zero_of_not_mem hb]
  simp [Split, Count, hcount, genSplitLoop, Index_append_single c a b ha]

/-! ## Facts about `checkRepoAccess` -/

/-- When the URL is not cut into two parts, `checkRepoAccess` returns the
format error and leaves the state as it was. -/
theorem checkRepoAccess_of_length_ne (env : Env) (client : Client) (token repoURL : Str)
    (w : World) (h : (Split (TrimPrefix repoURL githubPrefix) "/".toList).length ≠ 2) :
    checkRepoAccess env client token repoURL w = (.ok (none, some (invalidFormat repoURL)), w) := by
  unfold githubPrefix at h
  simp only [checkRepoAccess, invalidFormat]
  rw [if_pos h]

/-- When the URL is cut into the two parts `o` and `r`, `checkRepoAccess`
looks up `o` and `r` without its `.git` with a client that sends the
installation token, and returns what the lookup gives. -/
theorem checkRepoAccess_of_pair (env : Env) (client : Client) (token repoURL : Str)
    (w : World) (o r : Str) (h : Split (TrimPrefix repoURL githubPrefix) "/".toList = [o, r]) :
    checkRepoAccess env client token repoURL w =
      match (env.RepositoriesGet { AccessToken := token } o (TrimSuffix r ".git".toList)).2.2 with
      | some err =>
        (.ok (none, some err),
          afterLookupError w token o (TrimSuffix r ".git".toList)
            (env.RepositoriesGet { AccessToken := token } o (TrimSuffix r ".git".toList)).2.1 err)
      | none =>
        (.ok ((env.RepositoriesGet { AccessToken := token } o (TrimSuffix r ".git".toList)).1, none),
          w.call (.RepositoriesGet { AccessToken := token } o (TrimSuffix r ".git".toList))) := by
  unfold githubPrefix at h
  simp only [checkRepoAccess, h, afterLookupError]
  simp only [List.length_cons, List.length_nil, ne_eq, not_true_eq_false, if_false]
  simp only [List.getElem?_cons_zero, List.getElem?_cons_succ]
  split
  · rename_i err herr
    rcases hresp : (env.RepositoriesGet { AccessToken := token } o
        (TrimSuffix r ".git".toList)).2.1 with _ | resp
    · simp
    · by_cases h404 : resp.StatusCode = 404 <;> simp [h404]
  · rfl

/-- The calls `checkRepoAccess` makes when the URL is cut into two parts. -/
theorem checkRepoAccess_calls_of_pair (env : Env) (client : Client) (token repoURL : Str)
    (w : World) (o r : Str) (h : Split (TrimPrefix repoURL githubPrefix) "/".toList = [o, r]) :
    (checkRepoAccess env client token repoURL w).2.calls =
      w.calls ++ [Call.RepositoriesGet { AccessToken := token } o (TrimSuffix r ".git".toList)] := by
  rw [checkRepoAccess_of_pair env client token repoURL w o r h]
  split
  · simp only [afterLookupError]
    split
    · split <;> simp [World.call, World.Printf]
    · simp [World.call, World.Printf]
  · simp [World.call]

/-- A string with a single slash does not start with `https://github.com/`. -/
theorem not_githubPrefix_of_one_slash (a b : Str) (ha : '/' ∉ a) (hb : '/' ∉ b) :
    ¬ githubPrefix <+: (a ++ '/' :: b) := by
  intro h
  have h1 : githubPrefix.count '/' ≤ (a ++ '/' :: b).count '/' := h.sublist.count_le _
  have h2 : (a ++ '/' :: b).count '/' = 1 := by
    simp [List.count_append, List.count_eq_zero_of_not_mem ha, List.count_eq_zero_of_not_mem hb]
  have h3 : githubPrefix.count '/' = 3 := by decide
  omega

/-- The parts of `https://github.com/` + `a` + `/` + `b`. -/
theorem Split_github_url (a b : Str) (ha : '/' ∉ a) (hb : '/' ∉ b) :
    Split (TrimPrefix (githubPrefix ++ a ++ "/".toList ++ b) githubPrefix) "/".toList = [a, b] := by
  have h1 : githubPrefix ++ a ++ "/".toList ++ b = githubPrefix ++ (a ++ '/' :: b) := by
    simp [List.append_assoc]
  rw [h1, TrimPrefix_append]
  exact Split_single_pair '/' a b ha hb

/-- The parts of `a` + `/` + `b`. -/
theorem Split_bare_url (a b : Str) (ha : '/' ∉ a) (hb : '/' ∉ b) :
    Split (TrimPrefix (a ++ "/".toList ++ b) githubPrefix) "/".toList = [a, b] := by
  have h1 : a ++ "/".toList ++ b = a ++ '/' :: b := by simp [List.append_assoc]
  rw [h1, TrimPrefix_of_no_match _ _ (not_githubPrefix_of_one_slash a b ha hb)]
  exact Split_single_pair '/' a b ha hb

/-! ## URL parsing -/

/-- C1: for every owner and name without a slash, the name not ending in
`.git`, both `https://github.com/` + owner + `/` + name + `.git` and the same
URL without `.git` pass the format check (they are cut into two parts), and
the one call `checkRepoAccess` makes is the repository lookup with that owner
and that name as its owner and repo arguments. -/
theorem checkRepoAccess_github_url (env : Env) (client : Client) (token owner name : Str)
    (w : World) (ho : '/' ∉ owner) (hn : '/' ∉ name) (hg : ¬ ".git".toList <:+ name) :
    ((Split (TrimPrefix (githubPrefix ++ owner ++ "/".toList ++ name ++ ".git".toList)
        githubPrefix) "/".toList).length = 2 ∧
      (checkRepoAccess env client token
        (githubPrefix ++ owner ++ "/".toList ++ name ++ ".git".toList) w).2.calls =
        w.calls ++ [Call.RepositoriesGet { AccessToken := token } owner name]) ∧
    ((Split (TrimPrefix (githubPrefix ++ owner ++ "/".toList ++ name)
        githubPrefix) "/".toList).length = 2 ∧
      (checkRepoAccess env client token
        (githubPrefix ++ owner ++ "/".toList ++ name) w).2.calls =
        w.calls ++ [Call.RepositoriesGet { AccessToken := token } owner name]) := by
  have hdot : '/' ∉ name ++ ".git".toList := by
    intro h
    rcases List.mem_append.mp h with h | h
    · exact hn h
    · revert h; decide
  have h1 : Split (TrimPrefix (githubPrefix ++ owner ++ "/".toList ++ name ++ ".git".toList)
      githubPrefix) "/".toList = [owner, name ++ ".git".toList] := by
    have := Split_github_url owner (name ++ ".git".toList) ho hdot
    simpa [List.append_assoc] using this
  have h2 := Split_github_url owner name ho hn
  refine ⟨⟨by rw [h1]; rfl, ?_⟩, ⟨by rw [h2]; rfl, ?_⟩⟩
  · rw [checkRepoAccess_calls_of_pair env client token _ w _ _ h1, TrimSuffix_append]
  · rw [checkRepoAccess_calls_of_pair env client token _ w _ _ h2,
      TrimSuffix_of_no_match _ _ hg]

/-- C1 at owner `owner`, name `repo`, in an environment where the lookup
succeeds. -/
theorem checkRepoAccess_github_url_witness :
    ((Split (TrimPrefix "https://github.com/owner/repo.git".toList githubPrefix)
        "/".toList).length = 2 ∧
      (checkRepoAccess envAllGood { AccessToken := "jwt".toList } "tok".toList
        "https://github.com/owner/repo.git".toList World.start).2.calls =
        [Call.RepositoriesGet { AccessToken := "tok".toList } "owner".toList "repo".toList]) ∧
    ((Split (TrimPrefix "https://github.com/owner/repo".toList githubPrefix)
        "/".toList).length = 2 ∧
      (checkRepoAccess envAllGood { AccessToken := "jwt".toList } "tok".toList
        "https://github.com/owner/repo".toList World.start).2.calls =
        [Call.RepositoriesGet { AccessToken := "tok".toList } "owner".toList "repo".toList]) :=
  checkRepoAccess_github_url envAllGood { AccessToken := "jwt".toList } "tok".toList
    "owner".toList "repo".toList World.start (by decide) (by decide) (by decide)

/-- C2: `checkRepoAccess` returns the error `invalid repository URL format:
<repoURL>` with a nil repository and an unchanged state (no lookup, no log
line) if and only if the URL without one leading `https://github.com/` does
not hold exactly one slash; when it holds exactly one, the format check passes
and the lookup is made. -/
theorem checkRepoAccess_invalid_format_iff (env : Env) (client : Client) (token repoURL : Str)
    (w : World) :
    (checkRepoAccess env client token repoURL w =
        (.ok (none, some { msg := "invalid repository URL format: ".toList ++ repoURL }), w) ↔
      (TrimPrefix repoURL "https://github.com/".toList).count '/' ≠ 1) ∧
    ((TrimPrefix repoURL "https://github.com/".toList).count '/' = 1 →
      (Split (TrimPrefix repoURL "https://github.com/".toList) "/".toList).length = 2 ∧
      ∃ owner repo, (checkRepoAccess env client token repoURL w).2.calls =
        w.calls ++ [Call.RepositoriesGet { AccessToken := token } owner repo]) := by
  have hlen := Split_single_length '/' (TrimPrefix repoURL githubPrefix)
  have hpass : (TrimPrefix repoURL githubPrefix).count '/' = 1 →
      (Split (TrimPrefix repoURL githubPrefix) "/".toList).length = 2 ∧
      ∃ owner repo, (checkRepoAccess env client token repoURL w).2.calls =
        w.calls ++ [Call.RepositoriesGet { AccessToken := token } owner repo] := by
    intro h1
    have h2 : (Split (TrimPrefix repoURL githubPrefix) "/".toList).length = 2 := by
      have : "/".toList = ['/'] := rfl
      rw [this, hlen, h1]
    obtain ⟨o, r, hor⟩ := List.length_eq_two.mp h2
    exact ⟨h2, o, TrimSuffix r ".git".toList,
      checkRepoAccess_calls_of_pair env client token repoURL w o r hor⟩
  refine ⟨⟨?_, ?_⟩, hpass⟩
  · intro hres h1
    obtain ⟨_, owner, repo, hcalls⟩ := hpass h1
    rw [hres] at hcalls
    have := congrArg List.length hcalls
    simp at this
  · intro h1
    have h2 : (Split (TrimPrefix repoURL githubPrefix) "/".toList).length ≠ 2 := by
      have : "/".toList = ['/'] := rfl
      rw [this, hlen]
      intro h
      have h3 : (TrimPrefix repoURL githubPrefix).count '/' = 1 := by omega
      exact h1 h3
    exact checkRepoAccess_of_length_ne env client token repoURL w h2

/-- C9: nothing but the two-part check validates the URL.  For every `a` and
`b` without a slash (empty or not), the input `a` + `/` + `b` does not start
with `https://github.com/`, passes the format check, and is looked up with
owner `a` and repo `b` without one trailing `.git` (`b` itself when it does not
end in `.git`).  So `owner/repo` is looked up as `owner`, `repo`; `/` as two
empty strings; and `https://github.com/owner/repo.git.git` as `owner`,
`repo.git`. -/
theorem checkRepoAccess_no_further_validation (env : Env) (client : Client)
    (token a b : Str) (w : World) (ha : '/' ∉ a) (hb : '/' ∉ b) :
    ¬ "https://github.com/".toList <+: (a ++ "/".toList ++ b) ∧
    (Split (TrimPrefix (a ++ "/".toList ++ b) "https://github.com/".toList) "/".toList).length
      = 2 ∧
    (checkRepoAccess env client token (a ++ "/".toList ++ b) w).2.calls =
      w.calls ++ [Call.RepositoriesGet { AccessToken := token } a (TrimSuffix b ".git".toList)] ∧
    (∀ body, b = body ++ ".git".toList → TrimSuffix b ".git".toList = body) ∧
    (¬ ".git".toList <:+ b → TrimSuffix b ".git".toList = b) ∧
    (checkRepoAccess env client token "owner/repo".toList w).2.calls =
      w.calls ++ [Call.RepositoriesGet { AccessToken := token } "owner".toList "repo".toList] ∧
    (checkRepoAccess env client token "/".toList w).2.calls =
      w.calls ++ [Call.RepositoriesGet { AccessToken := token } [] []] ∧
    (checkRepoAccess env client token "https://github.com/owner/repo.git.git".toList w).2.calls =
      w.calls ++ [Call.RepositoriesGet { AccessToken := token } "owner".toList
        "repo.git".toList] := by
  have hsplit := Split_bare_url a b ha hb
  refine ⟨?_, ?_, ?_, ?_, ?_, ?_, ?_, ?_⟩
  · have h := not_githubPrefix_of_one_slash a b ha hb
    have h1 : a ++ "/".toList ++ b = a ++ '/' :: b := by simp [List.append_assoc]
    rw [h1]
    exact h
  · show (Split (TrimPrefix (a ++ "/".toList ++ b) githubPrefix) "/".toList).length = 2
    rw [hsplit]
    rfl
  · exact checkRepoAccess_calls_of_pair env client token _ w a b hsplit
  · intro body hbody
    rw [hbody, TrimSuffix_append]
  · intro h
    exact TrimSuffix_of_no_match _ _ h
  · have h := checkRepoAccess_calls_of_pair env client token "owner/repo".toList w
      "owner".toList "repo".toList (by decide)
    have ht : TrimSuffix "repo".toList ".git".toList = "repo".toList := by decide
    rw [ht] at h
    exact h
  · have h := checkRepoAccess_calls_of_pair env client token "/".toList w [] [] (by decide)
    have ht : TrimSuffix [] ".git".toList = [] := by decide
    rw [ht] at h
    exact h
  · have h := checkRepoAccess_calls_of_pair env client token
      "https://github.com/owner/repo.git.git".toList w "owner".toList "repo.git.git".toList
      (by decide)
    have ht : TrimSuffix "repo.git.git".toList ".git".toList = "repo.git".toList := by decide
    rw [ht] at h
    exact h

/-- C9 at `a` = `org`, `b` = `tool.git`, from the start of a run. -/
theorem checkRepoAccess_no_further_validation_witness :
    '/' ∉ "org".toList ∧ '/' ∉ "tool.git".toList ∧
    (checkRepoAccess envAllGood { AccessToken := "jwt".toList } "tok".toList
      ("org".toList ++ "/".toList ++ "tool.git".toList) World.start).2.calls =
      World.start.calls ++ [Call.RepositoriesGet { AccessToken := "tok".toList } "org".toList
        (TrimSuffix "tool.git".toList ".git".toList)] :=
  ⟨by decide, by decide,
    (checkRepoAccess_no_further_validation envAllGood { AccessToken := "jwt".toList }
      "tok".toList "org".toList "tool.git".toList World.start (by decide) (by decide)).2.2.1⟩

/-- C8: for a URL that is cut into owner `o` and a second part `r`, when the
lookup returns the error `err`, `checkRepoAccess` returns a nil repository and
that same `err`, whatever the response; it makes the one lookup, prints
nothing and logs one line: `Repository <owner>/<repo> not found` when there is
a response with status 404, `Error accessing repository: <err>` otherwise (no
response included), and the two lines differ. -/
theorem checkRepoAccess_lookup_error (env : Env) (client : Client) (token repoURL o r : Str)
    (w : World) (repository : Option Repository) (resp : Option Response) (err : GoError)
    (hurl : TrimPrefix repoURL "https://github.com/".toList = o ++ "/".toList ++ r)
    (ho : '/' ∉ o) (hr : '/' ∉ r)
    (hget : env.RepositoriesGet { AccessToken := token } o (TrimSuffix r ".git".toList) =
      (repository, resp, some err)) :
    (checkRepoAccess env client token repoURL w).1 = .ok (none, some err) ∧
    (checkRepoAccess env client token repoURL w).2.calls =
      w.calls ++ [Call.RepositoriesGet { AccessToken := token } o (TrimSuffix r ".git".toList)] ∧
    (checkRepoAccess env client token repoURL w).2.stdout = w.stdout ∧
    ((∃ rs, resp = some rs ∧ rs.StatusCode = 404) →
      (checkRepoAccess env client token repoURL w).2.stderr = w.stderr ++
        ["Repository ".toList ++ o ++ "/".toList ++ TrimSuffix r ".git".toList ++
          " not found".toList]) ∧
    (¬ (∃ rs, resp = some rs ∧ rs.StatusCode = 404) →
      (checkRepoAccess env client token repoURL w).2.stderr = w.stderr ++
        ["Error accessing repository: ".toList ++ err.msg]) ∧
    "Repository ".toList ++ o ++ "/".toList ++ TrimSuffix r ".git".toList ++ " not found".toList
      ≠ "Error accessing repository: ".toList ++ err.msg := by
  have hsplit : Split (TrimPrefix repoURL githubPrefix) "/".toList = [o, r] := by
    show Split (TrimPrefix repoURL "https://github.com/".toList) "/".toList = [o, r]
    rw [hurl]
    have h1 : o ++ "/".toList ++ r = o ++ '/' :: r := by simp [List.append_assoc]
    rw [h1]
    exact Split_single_pair '/' o r ho hr
  have hres := checkRepoAccess_of_pair env client token repoURL w o r hsplit
  rw [hget] at hres
  simp only at hres
  rw [hres]
  refine ⟨rfl, ?_, ?_, ?_, ?_, ?_⟩
  · rcases resp with _ | rs
    · simp [afterLookupError, World.call, World.Printf]
    · by_cases h404 : rs.StatusCode = 404 <;>
        simp [afterLookupError, World.call, World.Printf, h404]
  · rcases resp with _ | rs
    · simp [afterLookupError, World.call, World.Printf]
    · by_cases h404 : rs.StatusCode = 404 <;>
        simp [afterLookupError, World.call, World.Printf, h404]
  · rintro ⟨rs, rfl, h404⟩
    simp [afterLookupError, World.call, World.Printf, h404]
  · intro hno
    rcases resp with _ | rs
    · simp [afterLookupError, World.call, World.Printf]
    · have h404 : ¬ rs.StatusCode = 404 := fun h => hno ⟨rs, rfl, h⟩
      simp [afterLookupError, World.call, World.Printf, h404]
  · intro h
    have h0 := congrArg (fun l => l.head?) h
    simp at h0

/-- C8 at `owner/repo` with a 404 answer: the error of the lookup is returned
with a nil repository, and the line logged is the not-found line. -/
theorem checkRepoAccess_lookup_error_witness :
    (checkRepoAccess envNotFound { AccessToken := "jwt".toList } "tok".toList
      "owner/repo".toList World.start).1 = .ok (none, some { msg := "404 Not Found".toList }) ∧
    (checkRepoAccess envNotFound { AccessToken := "jwt".toList } "tok".toList
      "owner/repo".toList World.start).2.stderr =
      World.start.stderr ++ ["Repository ".toList ++ "owner".toList ++ "/".toList ++
        TrimSuffix "repo".toList ".git".toList ++ " not found".toList] :=
  have h := checkRepoAccess_lookup_error envNotFound { AccessToken := "jwt".toList }
    "tok".toList "owner/repo".toList "owner".toList "repo".toList World.start none
    (some { StatusCode := 404 }) { msg := "404 Not Found".toList }
    (by decide) (by decide) (by decide) (by decide)
  ⟨h.1, h.2.2.2.1 ⟨{ StatusCode := 404 }, rfl, rfl⟩⟩

/-! ## The course of a run -/

/-- Every run of `main` ends in one of eleven ways: a flag is missing; one of
the seven failing library calls; an empty installation list; a URL that is not
cut into two parts; or success.  In each the calls made are the first calls of
`course`, every call but a failing last one succeeded, and the lines logged
and printed are as given. -/
theorem main_cases (env : Env) (a p u d : Str) :
    (flagMissing a p u d = true ∧
      main env a p u d World.start =
        ({ calls := [], stderr := [flagsRequired], stdout := [] }, 1)) ∨
    (flagMissing a p u d = false ∧
      ∃ e, (env.ReadFile p).2 = some e ∧
      main env a p u d World.start =
        ({ calls := (course env a p u d).take 1,
           stderr := ["Error reading private key: ".toList ++ e.msg], stdout := [] }, 1)) ∨
    (flagMissing a p u d = false ∧
      (∀ c ∈ (course env a p u d).take 1, env.failed c = false) ∧
      ∃ e, (env.ParseRSAPrivateKeyFromPEM (keyOf env p)).2 = some e ∧
      main env a p u d World.start =
        ({ calls := (course env a p u d).take 2,
           stderr := ["Error parsing private key: ".toList ++ e.msg], stdout := [] }, 1)) ∨
    (flagMissing a p u d = false ∧
      (∀ c ∈ (course env a p u d).take 3, env.failed c = false) ∧
      ∃ e, (env.SignedString (generateJWTClaims a env.Now) (signKeyOf env p)).2 = some e ∧
      main env a p u d World.start =
        ({ calls := (course env a p u d).take 4,
           stderr := ["Error generating JWT: ".toList ++ e.msg], stdout := [] }, 1)) ∨
    (flagMissing a p u d = false ∧
      (∀ c ∈ (course env a p u d).take 4, env.failed c = false) ∧
      ∃ e, (env.ListInstallations (appClientOf env a p)).2 = some e ∧
      main env a p u d World.start =
        ({ calls := (course env a p u d).take 5,
           stderr := ["Error fetching installation ID: ".toList ++ e.msg], stdout := [] }, 1)) ∨
    (flagMissing a p u d = false ∧
      (∀ c ∈ (course env a p u d).take 5, env.failed c = false) ∧
      installationsOf env a p = [] ∧
      main env a p u d World.start =
        ({ calls := (course env a p u d).take 5,
           stderr := ["Error fetching installation ID: no installations found".toList],
           stdout := [] }, 1)) ∨
    (flagMissing a p u d = false ∧
      (∀ c ∈ (course env a p u d).take 5, env.failed c = false) ∧
      installationsOf env a p ≠ [] ∧
      ∃ e, (env.CreateInstallationToken (appClientOf env a p) (installationIDOf env a p)).2
        = some e ∧
      main env a p u d World.start =
        ({ calls := (course env a p u d).take 6,
           stderr := ["Error generating installation token: ".toList ++ e.msg],
           stdout := [] }, 1)) ∨
    (flagMissing a p u d = false ∧
      (∀ c ∈ (course env a p u d).take 6, env.failed c = false) ∧
      installationsOf env a p ≠ [] ∧
      (partsOf u).length ≠ 2 ∧
      main env a p u d World.start =
        ({ calls := (course env a p u d).take 6,
           stderr := ["Error accessing repository: ".toList ++
             ("invalid repository URL format: ".toList ++ u)],
           stdout := [] }, 1)) ∨
    (flagMissing a p u d = false ∧
      (∀ c ∈ (course env a p u d).take 6, env.failed c = false) ∧
      installationsOf env a p ≠ [] ∧
      (partsOf u).length = 2 ∧
      ∃ e line, (env.RepositoriesGet { AccessToken := tokenOf env a p }
          ((partsOf u).getD 0 []) (TrimSuffix ((partsOf u).getD 1 []) ".git".toList)).2.2
        = some e ∧
      (line = "Repository ".toList ++ (partsOf u).getD 0 [] ++ "/".toList ++
          TrimSuffix ((partsOf u).getD 1 []) ".git".toList ++ " not found".toList ∨
        line = "Error accessing repository: ".toList ++ e.msg) ∧
      main env a p u d World.start =
        ({ calls := (course env a p u d).take 7,
           stderr := [line, "Error accessing repository: ".toList ++ e.msg],
           stdout := [] }, 1)) ∨
    (flagMissing a p u d = false ∧
      (∀ c ∈ (course env a p u d).take 7, env.failed c = false) ∧
      installationsOf env a p ≠ [] ∧
      (partsOf u).length = 2 ∧
      ∃ e, env.PlainClone d false (cloneOptionsOf env a p u) = some e ∧
      main env a p u d World.start =
        ({ calls := course env a p u d,
           stderr := ["Error cloning repository: ".toList ++ e.msg],
           stdout := detailsOf (repositoryOf env a p u) }, 1)) ∨
    (flagMissing a p u d = false ∧
      (∀ c ∈ course env a p u d, env.failed c = false) ∧
      installationsOf env a p ≠ [] ∧
      (partsOf u).length = 2 ∧
      main env a p u d World.start =
        ({ calls := course env a p u d, stderr := [],
           stdout := detailsOf (repositoryOf env a p u) ++ [clonedSuccessfully] }, 0)) := by
  by_cases hf : flagMissing a p u d = true
  · left
    exact ⟨hf, by simp [main, hf, World.Fatalf, World.Printf, World.start]⟩
  right
  have hf0 : flagMissing a p u d = false := by simpa using hf
  rcases hR : (env.ReadFile p).2 with _ | e
  swap
  · left
    exact ⟨hf0, e, rfl, by
      simp [main, hf0, hR, World.Fatalf, World.Printf, World.start, World.call, course]⟩
  right
  rcases hP : (env.ParseRSAPrivateKeyFromPEM (keyOf env p)).2 with _ | e
  swap
  · left
    refine ⟨hf0, by simp [course, Env.failed, hR], e, rfl, ?_⟩
    unfold keyOf at hP
    simp [main, hf0, hR, hP, World.Fatalf, World.Printf, World.start, World.call, course, keyOf]
  right
  have hP0 := hP
  unfold keyOf at hP0
  rcases hS : (env.SignedString (generateJWTClaims a env.Now) (signKeyOf env p)).2 with _ | e
  swap
  · left
    refine ⟨hf0, by simp [course, Env.failed, hR, hP], e, rfl, ?_⟩
    unfold signKeyOf keyOf at hS
    simp [main, hf0, hR, hP0, hS, generateJWT, World.Fatalf, World.Printf, World.start,
      World.call, course, keyOf, signKeyOf]
  right
  have hS0 := hS
  unfold signKeyOf keyOf at hS0
  rcases hL : (env.ListInstallations (appClientOf env a p)).2 with _ | e
  swap
  · left
    refine ⟨hf0, by simp [course, Env.failed, hR, hP, hS], e, rfl, ?_⟩
    unfold appClientOf jwtOf signKeyOf keyOf getGitHubClient at hL
    simp [main, hf0, hR, hP0, hS0, hL, generateJWT, getInstallationID, getGitHubClient,
      World.Fatalf, World.Printf, World.start, World.call, course, keyOf, signKeyOf, jwtOf,
      appClientOf]
  right
  have hL0 := hL
  unfold appClientOf jwtOf signKeyOf keyOf getGitHubClient at hL0
  rcases hI : (env.ListInstallations (appClientOf env a p)).1 with _ | ⟨first, rest⟩
  · left
    refine ⟨hf0, by simp [course, Env.failed, hR, hP, hS, hL], hI, ?_⟩
    unfold appClientOf jwtOf signKeyOf keyOf getGitHubClient at hI
    simp [main, hf0, hR, hP0, hS0, hL0, hI, generateJWT, getInstallationID, getGitHubClient,
      World.Fatalf, World.Printf, World.start, World.call, course, keyOf, signKeyOf, jwtOf,
      appClientOf]
  right
  have hne : installationsOf env a p ≠ [] := by simp [installationsOf, hI]
  have hID : installationIDOf env a p = Installation.GetID first := by
    simp [installationIDOf, installationsOf, hI]
  have hI0 := hI
  unfold appClientOf jwtOf signKeyOf keyOf getGitHubClient at hI0
  rcases hT : (env.CreateInstallationToken (appClientOf env a p) (installationIDOf env a p)).2
    with _ | e
  swap
  · left
    refine ⟨hf0, by simp [course, Env.failed, hR, hP, hS, hL], hne, e, rfl, ?_⟩
    rw [hID] at hT
    unfold appClientOf jwtOf signKeyOf keyOf getGitHubClient at hT
    simp [main, hf0, hR, hP0, hS0, hL0, hI0, hT, hID, generateJWT, getInstallationID,
      getInstallationToken, getGitHubClient, World.Fatalf, World.Printf, World.start,
      World.call, course, keyOf, signKeyOf, jwtOf, appClientOf]
  right
  have hT0 := hT
  rw [hID] at hT0
  unfold appClientOf jwtOf signKeyOf keyOf getGitHubClient at hT0
  have hmain : main env a p u d World.start =
      match checkRepoAccess env (appClientOf env a p) (tokenOf env a p) u
        { calls := (course env a p u d).take 6, stderr := [], stdout := [] } with
      | (.panicked, w) => (w, 2)
      | (.ok (_, some err), w) => w.Fatalf ("Error accessing repository: ".toList ++ err.msg)
      | (.ok (repo, none), w) =>
        match cloneRepo env u d (tokenOf env a p) (printRepoDetails repo w) with
        | (some err, w) => w.Fatalf ("Error cloning repository: ".toList ++ err.msg)
        | (none, w) => (w.Println clonedSuccessfully, 0) := by
    simp [main, hf0, hR, hP0, hS0, hL0, hI0, hT0, hID, generateJWT, getInstallationID,
      getInstallationToken, getGitHubClient, World.start,
      World.call, course, keyOf, signKeyOf, jwtOf, appClientOf, tokenOf]
  rw [hmain]
  by_cases hlen : (partsOf u).length = 2
  swap
  · left
    refine ⟨hf0, by simp [course, Env.failed, hR, hP, hS, hL, hT], hne, hlen, ?_⟩
    rw [checkRepoAccess_of_length_ne env _ _ u _ hlen]
    simp [World.Fatalf, World.Printf, invalidFormat]
  right
  obtain ⟨o, r, hor⟩ := List.length_eq_two.mp hlen
  have hor0 : Split (TrimPrefix u githubPrefix) "/".toList = [o, r] := hor
  rw [checkRepoAccess_of_pair env _ _ u _ o r hor0]
  have hg0 : (partsOf u).getD 0 [] = o := by simp [hor]
  have hg1 : (partsOf u).getD 1 [] = r := by simp [hor]
  rcases hG : (env.RepositoriesGet { AccessToken := tokenOf env a p } o
      (TrimSuffix r ".git".toList)).2.2 with _ | e
  swap
  · left
    refine ⟨hf0, by simp [course, Env.failed, hR, hP, hS, hL, hT], hne, hlen, e, ?_⟩
    rw [hg0, hg1]
    rcases hresp : (env.RepositoriesGet { AccessToken := tokenOf env a p } o
        (TrimSuffix r ".git".toList)).2.1 with _ | resp
    · refine ⟨_, hG, Or.inr rfl, ?_⟩
      simp [afterLookupError, World.Fatalf, World.Printf, World.call, course, hor]
    · by_cases h404 : resp.StatusCode = 404
      · refine ⟨_, hG, Or.inl rfl, ?_⟩
        simp [afterLookupError, World.Fatalf, World.Printf, World.call, course, hor, h404]
      · refine ⟨_, hG, Or.inr rfl, ?_⟩
        simp [afterLookupError, World.Fatalf, World.Printf, World.call, course, hor, h404]
  right
  have hG' : env.failed (.RepositoriesGet { AccessToken := tokenOf env a p }
      ((partsOf u).getD 0 []) (TrimSuffix ((partsOf u).getD 1 []) ".git".toList)) = false := by
    rw [hg0, hg1]
    show (env.RepositoriesGet { AccessToken := tokenOf env a p } o
      (TrimSuffix r ".git".toList)).2.2.isSome = false
    rw [hG]
    rfl
  rcases hC : env.PlainClone d false (cloneOptionsOf env a p u) with _ | e
  swap
  · left
    refine ⟨hf0, ?_, hne, hlen, e, rfl, ?_⟩
    · intro c hc
      simp only [course, List.take, List.mem_cons] at hc
      rcases hc with rfl | rfl | rfl | rfl | rfl | rfl | rfl | hc
      · simp [Env.failed, hR]
      · simp [Env.failed, hP]
      · simp [Env.failed]
      · simp [Env.failed, hS]
      · simp [Env.failed, hL]
      · simp [Env.failed, hT]
      · exact hG'
      · simp at hc
    · have hclone : ∀ w0 : World, cloneRepo env u d (tokenOf env a p) w0 =
          (some e, w0.call (.PlainClone d false (cloneOptionsOf env a p u))) := by
        intro w0
        show (env.PlainClone d false (cloneOptionsOf env a p u), _) = _
        rw [hC]
        rfl
      simp [hclone, printRepoDetails, World.Fatalf, World.Printf, World.Println, World.call,
        course, hor, detailsOf, repositoryOf, cloneOptionsOf]
  right
  refine ⟨hf0, ?_, hne, hlen, ?_⟩
  · intro c hc
    simp only [course, List.mem_cons] at hc
    rcases hc with rfl | rfl | rfl | rfl | rfl | rfl | rfl | rfl | hc
    · simp [Env.failed, hR]
    · simp [Env.failed, hP]
    · simp [Env.failed]
    · simp [Env.failed, hS]
    · simp [Env.failed, hL]
    · simp [Env.failed, hT]
    · exact hG'
    · simp [Env.failed, hC]
    · simp at hc
  · have hclone : ∀ w0 : World, cloneRepo env u d (tokenOf env a p) w0 =
        (none, w0.call (.PlainClone d false (cloneOptionsOf env a p u))) := by
      intro w0
      show (env.PlainClone d false (cloneOptionsOf env a p u), _) = _
      rw [hC]
      rfl
    simp [hclone, printRepoDetails, World.Println, World.call,
      course, hor, detailsOf, repositoryOf, cloneOptionsOf]

/-- The flag check fails exactly when one of the four flags is empty. -/
theorem flagMissing_iff (a p u d : Str) :
    flagMissing a p u d = true ↔ (a = [] ∨ p = [] ∨ u = [] ∨ d = []) := by
  simp [flagMissing, or_assoc]

/-! ## Flag validation -/

/-- C3: when at least one of the four flags is empty, the run ends with exit
status 1, its one log line is the text that all four flags are required, and
it makes no library call at all (so no key-file read, no installation listing,
no token request, no repository lookup, no clone) and prints nothing; when all
four are non-empty that line is not logged and the run goes on to its first
call, the read of the key file. -/
theorem main_flag_validation (env : Env) (appID privateKeyPath repoURL cloneDir : Str) :
    ((appID = [] ∨ privateKeyPath = [] ∨ repoURL = [] ∨ cloneDir = []) →
      main env appID privateKeyPath repoURL cloneDir World.start =
        ({ calls := [],
           stderr := ["All flags --app_id, --pem_path, --repo_url, and --clone_dir are required".toList],
           stdout := [] }, 1)) ∧
    (¬ (appID = [] ∨ privateKeyPath = [] ∨ repoURL = [] ∨ cloneDir = []) →
      "All flags --app_id, --pem_path, --repo_url, and --clone_dir are required".toList ∉
        (main env appID privateKeyPath repoURL cloneDir World.start).1.stderr ∧
      (main env appID privateKeyPath repoURL cloneDir World.start).1.calls.head? =
        some (Call.ReadFile privateKeyPath)) := by
  constructor
  · intro h
    have hf := (flagMissing_iff appID privateKeyPath repoURL cloneDir).mpr h
    simp [main, hf, World.Fatalf, World.Printf, World.start, flagsRequired]
  · intro h
    have hf : ¬ flagMissing appID privateKeyPath repoURL cloneDir = true :=
      fun hf => h ((flagMissing_iff _ _ _ _).mp hf)
    rcases main_cases env appID privateKeyPath repoURL cloneDir with
      ⟨h0, _⟩ | ⟨_, e, _, hm⟩ | ⟨_, _, e, _, hm⟩ | ⟨_, _, e, _, hm⟩ | ⟨_, _, e, _, hm⟩ |
      ⟨_, _, _, hm⟩ | ⟨_, _, _, e, _, hm⟩ | ⟨_, _, _, _, hm⟩ |
      ⟨_, _, _, _, e, line, _, hline, hm⟩ | ⟨_, _, _, _, e, _, hm⟩ | ⟨_, _, _, _, hm⟩
    · exact absurd h0 hf
    all_goals rw [hm]
    all_goals try simp [course]
    rcases hline with rfl | rfl <;> simp

/-! ## JWT claims -/

/-- An integer in the range of an `int64` is its own reduction. -/
theorem wrap64_of_range (x : Int) (h1 : -2 ^ 63 ≤ x) (h2 : x < 2 ^ 63) : wrap64 x = x := by
  unfold wrap64
  omega

/-- The value of `unixToInternal`. -/
theorem unixToInternal_eq : unixToInternal = 62135596800 := by decide

/-- The value of `wallToInternal`. -/
theorem wallToInternal_eq : wallToInternal = 59453308800 := by decide

/-- Ten minutes in nanoseconds. -/
theorem tenMinutes_eq : wrap64 (Minute * 10) = 600000000000 := by decide

/-- The monotonic bit of a time whose `wall` is below `2 ^ 63` is clear. -/
theorem Time.hasMono_of_lt (t : Time) (h : t.wall < 2 ^ 63) : t.hasMono = false := by
  unfold Time.hasMono
  have h0 : t.wall / 2 ^ 63 % 2 = 0 := by omega
  rw [h0]
  rfl

/-- Stripping the monotonic reading leaves a time without the monotonic bit. -/
theorem Time.hasMono_stripMono (t : Time) : t.stripMono.hasMono = false := by
  by_cases h : t.hasMono = true
  · have hs : t.stripMono = { wall := t.wall % 2 ^ 30, ext := t.sec } := by
      unfold Time.stripMono
      rw [if_pos h]
    rw [hs]
    apply Time.hasMono_of_lt
    show t.wall % 2 ^ 30 < 2 ^ 63
    omega
  · have hs : t.stripMono = t := by
      unfold Time.stripMono
      rw [if_neg h]
    rw [hs]
    simpa using h

/-- Stripping the monotonic reading keeps the seconds. -/
theorem Time.sec_stripMono (t : Time) : t.stripMono.sec = t.sec := by
  by_cases h : t.hasMono = true
  · have h0 := Time.hasMono_stripMono t
    have hs : t.stripMono = { wall := t.wall % 2 ^ 30, ext := t.sec } := by
      unfold Time.stripMono
      rw [if_pos h]
    have h1 : t.stripMono.sec = t.stripMono.ext := by
      rw [Time.sec, h0]
      rfl
    rw [h1, hs]
  · have hs : t.stripMono = t := by
      unfold Time.stripMono
      rw [if_neg h]
    rw [hs]

/-- The seconds field of `wall` is below `2 ^ 33`. -/
theorem Time.wallSec_lt (t : Time) : 0 ≤ t.wallSec ∧ t.wallSec < 2 ^ 33 := by
  unfold Time.wallSec
  omega

/-- The seconds of a time without the monotonic bit are its `ext`. -/
theorem Time.sec_of_not_mono (t : Time) (h : t.hasMono = false) : t.sec = t.ext := by
  rw [Time.sec, h]
  rfl

/-- The seconds of a time with the monotonic bit are those of `wall`, counted
from year 1. -/
theorem Time.sec_of_mono (t : Time) (h : t.hasMono = true) :
    t.sec = 59453308800 + t.wallSec := by
  have hb := Time.wallSec_lt t
  rw [Time.sec, h, wallToInternal_eq]
  simp only [if_true]
  exact wrap64_of_range _ (by omega) (by omega)

/-- Adding 600 seconds to `ext`: the sum, or the largest time when the sum
overflows. -/
theorem Time.addExt_600 (t : Time) (hlo : -2 ^ 63 ≤ t.ext) (hhi : t.ext < 2 ^ 63) :
    t.addExt 600 =
      { wall := t.wall, ext := if t.ext + 600 < 2 ^ 63 then t.ext + 600 else 2 ^ 63 - 1 } := by
  have hd : decide ((600 : Int) > 0) = true := by decide
  by_cases h : t.ext + 600 < 2 ^ 63
  · have hsum : wrap64 (t.ext + 600) = t.ext + 600 := wrap64_of_range _ (by omega) h
    have hc : decide (wrap64 (t.ext + 600) > t.ext) = decide ((600 : Int) > 0) := by
      rw [hsum, hd, decide_eq_true_iff]
      omega
    unfold Time.addExt
    simp only [hc, if_true]
    rw [hsum, if_pos h]
  · have hsum : wrap64 (t.ext + 600) = t.ext + 600 - 2 ^ 64 := by
      unfold wrap64
      omega
    have hc : ¬ decide (wrap64 (t.ext + 600) > t.ext) = decide ((600 : Int) > 0) := by
      rw [hsum, hd, decide_eq_true_iff]
      omega
    have hpos : (600 : Int) > 0 := by decide
    unfold Time.addExt
    simp only [hc, if_false]
    rw [if_pos hpos, if_neg h]

/-- A `wall` built from nanoseconds, seconds and the monotonic bit has that
bit set. -/
theorem Time.hasMono_packed (n s : Nat) (e : Int) (hn : n < 2 ^ 30) (hs : s < 2 ^ 33) :
    Time.hasMono { wall := n + s * 2 ^ 30 + hasMonotonic, ext := e } = true := by
  unfold Time.hasMono hasMonotonic
  have h1 : (n + s * 2 ^ 30 + 2 ^ 63) / 2 ^ 63 % 2 = 1 := by omega
  simp only [h1, decide_True]

/-- A `wall` built from nanoseconds, seconds and the monotonic bit holds those
seconds. -/
theorem Time.wallSec_packed (n s : Nat) (e : Int) (hn : n < 2 ^ 30) (hs : s < 2 ^ 33) :
    Time.wallSec { wall := n + s * 2 ^ 30 + hasMonotonic, ext := e } = (s : Int) := by
  unfold Time.wallSec hasMonotonic
  have h1 : (n + s * 2 ^ 30 + 2 ^ 63) * 2 % 2 ^ 64 / 2 ^ 31 = s := by omega
  simp only [h1]

/-- Adding 600 seconds with `addSec`: the seconds grow by 600, or stop at the
largest time. -/
theorem Time.sec_addSec_600 (t : Time) (hlo : -2 ^ 63 ≤ t.ext) (hhi : t.ext < 2 ^ 63) :
    (t.addSec 600).sec = if t.sec + 600 < 2 ^ 63 then t.sec + 600 else 2 ^ 63 - 1 := by
  by_cases hm : t.hasMono = true
  · have hb := Time.wallSec_lt t
    have hsec := Time.sec_of_mono t hm
    have hd : wrap64 (t.wallSec + 600) = t.wallSec + 600 :=
      wrap64_of_range _ (by omega) (by omega)
    have hlt : t.sec + 600 < 2 ^ 63 := by omega
    rw [if_pos hlt]
    by_cases hfit : t.wallSec + 600 ≤ 2 ^ 33 - 1
    · have hres : t.addSec 600 =
          { wall := t.wall % 2 ^ 30 + (t.wallSec + 600).toNat * 2 ^ 30 + hasMonotonic,
            ext := t.ext } := by
        unfold Time.addSec
        rw [if_pos hm]
        simp only [hd]
        rw [if_pos ⟨by omega, hfit⟩]
      have hn : t.wall % 2 ^ 30 < 2 ^ 30 := by omega
      have hs : (t.wallSec + 600).toNat < 2 ^ 33 := by omega
      rw [hres, Time.sec_of_mono _ (Time.hasMono_packed _ _ _ hn hs),
        Time.wallSec_packed _ _ _ hn hs, hsec]
      omega
    · have hres : t.addSec 600 = t.stripMono.addExt 600 := by
        unfold Time.addSec
        rw [if_pos hm]
        simp only [hd]
        rw [if_neg (by omega)]
      have hs : t.stripMono = { wall := t.wall % 2 ^ 30, ext := t.sec } := by
        unfold Time.stripMono
        rw [if_pos hm]
      have h1 : -2 ^ 63 ≤ (Time.mk (t.wall % 2 ^ 30) t.sec).ext := by
        show -2 ^ 63 ≤ t.sec
        omega
      have h2 : (Time.mk (t.wall % 2 ^ 30) t.sec).ext < 2 ^ 63 := by
        show t.sec < 2 ^ 63
        omega
      have h3 : (Time.mk (t.wall % 2 ^ 30)
          (if t.sec + 600 < 2 ^ 63 then t.sec + 600 else 2 ^ 63 - 1)).wall < 2 ^ 63 := by
        show t.wall % 2 ^ 30 < 2 ^ 63
        omega
      rw [hres, hs, Time.addExt_600 _ h1 h2]
      show (Time.mk (t.wall % 2 ^ 30)
        (if t.sec + 600 < 2 ^ 63 then t.sec + 600 else 2 ^ 63 - 1)).sec = t.sec + 600
      rw [Time.sec_of_not_mono _ (Time.hasMono_of_lt _ h3)]
      show (if t.sec + 600 < 2 ^ 63 then t.sec + 600 else 2 ^ 63 - 1) = t.sec + 600
      rw [if_pos hlt]
  · have hm0 : t.hasMono = false := by simpa using hm
    have hsec := Time.sec_of_not_mono t hm0
    have hres : t.addSec 600 = t.addExt 600 := by
      unfold Time.addSec
      rw [if_neg hm]
    have hm2 : (Time.mk t.wall
        (if t.ext + 600 < 2 ^ 63 then t.ext + 600 else 2 ^ 63 - 1)).hasMono = false := hm0
    rw [hres, Time.addExt_600 t hlo hhi, hsec, Time.sec_of_not_mono _ hm2]

/-- The last step of `Time.Add`, which moves or strips the monotonic reading,
keeps the seconds. -/
theorem Time.sec_moveMono (t : Time) (d te : Int) :
    Time.sec (if t.hasMono then
        (if (d < 0 ∧ te > t.ext) ∨ (d > 0 ∧ te < t.ext) then t.stripMono
          else { t with ext := te })
      else t) = t.sec := by
  by_cases hm : t.hasMono = true
  · rw [if_pos hm]
    by_cases hc : (d < 0 ∧ te > t.ext) ∨ (d > 0 ∧ te < t.ext)
    · rw [if_pos hc, Time.sec_stripMono]
    · rw [if_neg hc]
      have hm2 : (Time.mk t.wall te).hasMono = true := hm
      have hw : (Time.mk t.wall te).wallSec = t.wallSec := rfl
      rw [Time.sec_of_mono _ hm2, Time.sec_of_mono _ hm, hw]
  · rw [if_neg hm]

/-- Ten minutes added to a time with its nanoseconds below one second: the
seconds since year 1 grow by 600, or stop at the largest time. -/
theorem Time.sec_Add_ten_minutes (t : Time) (hlo : -2 ^ 63 ≤ t.ext) (hhi : t.ext < 2 ^ 63)
    (hns : t.nsec < 1000000000) :
    (t.Add (wrap64 (Minute * 10))).sec =
      if t.sec + 600 < 2 ^ 63 then t.sec + 600 else 2 ^ 63 - 1 := by
  have h1 : Int.tdiv 600000000000 1000000000 = 600 := by decide
  have h2 : Int.tmod 600000000000 1000000000 = 0 := by decide
  have h3 : ¬ (1000000000 : Int) ≤ t.nsec := by omega
  have h4 : ¬ t.nsec < 0 := by
    unfold Time.nsec
    omega
  have h5 : t.wall - t.wall % 2 ^ 30 + t.nsec.toNat = t.wall := by
    unfold Time.nsec
    omega
  have h6 : (Time.mk (t.wall - t.wall % 2 ^ 30 + t.nsec.toNat) t.ext) = t := by
    rw [h5]
  rw [tenMinutes_eq]
  unfold Time.Add
  simp only [h1, h2, add_zero, h3, h4, if_false, h6]
  rw [Time.sec_moveMono, Time.sec_addSec_600 t hlo hhi]

/-- Ten minutes after `t` the Unix seconds are 600 more exactly when `t` is
more than 600 seconds before the largest time and before the largest `int64`
of Unix seconds. -/
theorem Time.Unix_Add_ten_minutes (t : Time) (hlo : -2 ^ 63 ≤ t.ext) (hhi : t.ext < 2 ^ 63)
    (hns : t.nsec < 1000000000) :
    (t.Add (wrap64 (Minute * 10))).Unix = t.Unix + 600 ↔
      (t.sec + 600 < 2 ^ 63 ∧ t.Unix + 600 < 2 ^ 63) := by
  have hsec : -2 ^ 63 ≤ t.sec ∧ t.sec < 2 ^ 63 := by
    by_cases hm : t.hasMono = true
    · have hb := Time.wallSec_lt t
      rw [Time.sec_of_mono t hm]
      omega
    · rw [Time.sec_of_not_mono t (by simpa using hm)]
      exact ⟨hlo, hhi⟩
  have hadd := Time.sec_Add_ten_minutes t hlo hhi hns
  unfold Time.Unix Time.unixSec
  rw [hadd, internalToUnix, unixToInternal_eq]
  unfold wrap64
  split_ifs <;> omega

/-- C4, as amended: for every app ID and every current time `now` (a Go time
whose `ext` is an `int64` and whose nanoseconds are below one second), the
claims `generateJWT` builds and hands to the signer have `Issuer` equal to the
app ID and `IssuedAt` equal to `now` in Unix seconds, no other registered
claim is set, and `ExpiresAt` equals `IssuedAt + 600` exactly when `now` is
more than 600 seconds before the largest Go time (seconds since year 1 below
`2 ^ 63 - 600`) and before the largest `int64` of Unix seconds. -/
theorem generateJWT_claims (env : Env) (appID : Str) (key : Option PrivateKey) (w : World)
    (hlo : -2 ^ 63 ≤ env.Now.ext) (hhi : env.Now.ext < 2 ^ 63)
    (hns : env.Now.nsec < 1000000000) :
    ∃ claims : StandardClaims,
      (generateJWT env appID key w).2.calls = w.calls ++ [Call.Now, Call.SignedString claims key] ∧
      claims = generateJWTClaims appID env.Now ∧
      claims.Issuer = appID ∧
      claims.IssuedAt = env.Now.Unix ∧
      claims.Audience = [] ∧ claims.Id = [] ∧ claims.NotBefore = 0 ∧ claims.Subject = [] ∧
      (claims.ExpiresAt = claims.IssuedAt + 600 ↔
        (env.Now.sec + 600 < 2 ^ 63 ∧ env.Now.Unix + 600 < 2 ^ 63)) := by
  refine ⟨generateJWTClaims appID env.Now, ?_, rfl, rfl, rfl, rfl, rfl, rfl, rfl, ?_⟩
  · simp only [generateJWT]
    split <;> simp [World.call]
  · exact Time.Unix_Add_ten_minutes env.Now hlo hhi hns

set_option maxRecDepth 100000 in
/-- C4 at app ID `12345`, the key of `envAllGood` and its clock, which reads
Unix second 1700000000: issued at 1700000000, expiring at 1700000600. -/
theorem generateJWT_claims_witness :
    ∃ claims : StandardClaims,
      (generateJWT envAllGood "12345".toList (some demoKey) World.start).2.calls =
        [Call.Now, Call.SignedString claims (some demoKey)] ∧
      claims.Issuer = "12345".toList ∧
      claims.IssuedAt = 1700000000 ∧
      claims.ExpiresAt = 1700000600 ∧
      claims.ExpiresAt = claims.IssuedAt + 600 := by
  obtain ⟨claims, hcalls, hclaims, hiss, hiat, _, _, _, _, hexp⟩ :=
    generateJWT_claims envAllGood "12345".toList (some demoKey) World.start
      (by decide) (by decide) (by decide)
  have h600 : claims.ExpiresAt = claims.IssuedAt + 600 := hexp.mpr ⟨by decide, by decide⟩
  have hunix : envAllGood.Now.Unix = 1700000000 := by decide
  refine ⟨claims, hcalls, hiss, ?_, ?_, h600⟩
  · rw [hiat, hunix]
  · rw [h600, hiat, hunix]
    rfl

set_option maxRecDepth 100000 in
/-- C4 as first stated fails 301 seconds before the largest Go time: with the
clock at Unix second 9223371974719178707 the claims handed to the signer have
`ExpiresAt` equal to `IssuedAt + 300`, the largest time, not `IssuedAt + 600`. -/
theorem generateJWT_claims_counterexample :
    (generateJWT envLateClock "12345".toList (some demoKey) World.start).2.calls =
      [ Call.Now,
        Call.SignedString
          { Audience := [], ExpiresAt := 9223371974719179007, Id := [],
            IssuedAt := 9223371974719178707, Issuer := "12345".toList, NotBefore := 0,
            Subject := [] } (some demoKey) ] ∧
    (generateJWTClaims "12345".toList envLateClock.Now).ExpiresAt =
      (generateJWTClaims "12345".toList envLateClock.Now).IssuedAt + 300 ∧
    decide ((generateJWTClaims "12345".toList envLateClock.Now).ExpiresAt =
      (generateJWTClaims "12345".toList envLateClock.Now).IssuedAt + 600) = false := by
  decide

/-! ## Installation selection -/

/-- C5: `getInstallationID` returns an API error unchanged with ID 0; for a
list returned without error it returns the error `no installations found`
with ID 0 when the list is empty, and otherwise the ID of the first element
without error, whatever the later elements; it makes the one listing call and
never panics on an index out of range. -/
theorem getInstallationID_spec (env : Env) (client : Client) (w : World) :
    (∀ e, (env.ListInstallations client).2 = some e →
      getInstallationID env client w = (.ok (0, some e), w.call (.ListInstallations client))) ∧
    ((env.ListInstallations client).2 = none → (env.ListInstallations client).1 = [] →
      getInstallationID env client w =
        (.ok (0, some { msg := "no installations found".toList }),
          w.call (.ListInstallations client))) ∧
    (∀ first rest, (env.ListInstallations client).2 = none →
      (env.ListInstallations client).1 = first :: rest →
      getInstallationID env client w =
        (.ok (Installation.GetID first, none), w.call (.ListInstallations client))) ∧
    (getInstallationID env client w).1 ≠ .panicked := by
  refine ⟨?_, ?_, ?_, ?_⟩
  · intro e he
    simp [getInstallationID, he]
  · intro he hl
    simp [getInstallationID, he, hl]
  · intro first rest he hl
    simp [getInstallationID, he, hl]
  · rcases he : (env.ListInstallations client).2 with _ | e
    · rcases hl : (env.ListInstallations client).1 with _ | ⟨first, rest⟩
      · simp [getInstallationID, he, hl]
      · simp [getInstallationID, he, hl]
    · simp [getInstallationID, he]

/-! ## Errors end the run -/

/-- In a list of calls of which all but the last succeeded, a failed call has
nothing after it. -/
theorem failed_is_last (env : Env) (cs : List Call) (n : Nat)
    (hok : ∀ c ∈ cs.take n, env.failed c = false) (before after : List Call) (c : Call)
    (hcs : cs.take (n + 1) = before ++ c :: after) (hc : env.failed c = true) : after = [] := by
  by_contra hne
  have hlen : (cs.take (n + 1)).length ≤ n + 1 := by simp
  rw [hcs] at hlen
  have hpos : 0 < after.length := List.length_pos.mpr hne
  have hb : before.length < n := by
    simp only [List.length_append, List.length_cons] at hlen
    omega
  have hmem : c ∈ cs.take n := by
    have h1 : cs.take n = (cs.take (n + 1)).take n := by
      rw [List.take_take]
      simp
    rw [h1, hcs, List.take_append_eq_append_take]
    have h2 : List.take n before = before := List.take_of_length_le (by omega)
    rw [h2]
    apply List.mem_append_right
    have h3 : n - before.length = (n - before.length - 1) + 1 := by omega
    rw [h3, List.take_succ_cons]
    exact List.mem_cons_self _ _
  rw [hok c hmem] at hc
  exact Bool.false_ne_true hc

/-- When every call of a run succeeded, none of them is a failed call. -/
theorem no_failed_call (env : Env) (cs : List Call) (hok : ∀ c ∈ cs, env.failed c = false)
    (before after : List Call) (c : Call) (hcs : cs = before ++ c :: after)
    (hc : env.failed c = true) : False := by
  have hmem : c ∈ cs := by
    rw [hcs]
    simp
  rw [hok c hmem] at hc
  exact Bool.false_ne_true hc

/-- The exit status of a run is 0 or 1: no run ends in a panic. -/
theorem main_exit (env : Env) (a p u d : Str) :
    (main env a p u d World.start).2 = 0 ∨ (main env a p u d World.start).2 = 1 := by
  rcases main_cases env a p u d with
    ⟨hf, hm⟩ | ⟨hf, e, he, hm⟩ | ⟨hf, hok, e, he, hm⟩ | ⟨hf, hok, e, he, hm⟩ |
    ⟨hf, hok, e, he, hm⟩ | ⟨hf, hok, hemp, hm⟩ | ⟨hf, hok, hne, e, he, hm⟩ |
    ⟨hf, hok, hne, hlen, hm⟩ | ⟨hf, hok, hne, hlen, e, line, he, hline, hm⟩ |
    ⟨hf, hok, hne, hlen, e, he, hm⟩ | ⟨hf, hok, hne, hlen, hm⟩
  all_goals rw [hm]
  all_goals simp

/-- The calls of a run are the first calls of the program text, in order, each
made once. -/
theorem main_calls_ord (env : Env) (a p u d : Str) :
    (main env a p u d World.start).1.calls.map Call.ord =
      List.range' 1 (main env a p u d World.start).1.calls.length := by
  rcases main_cases env a p u d with
    ⟨hf, hm⟩ | ⟨hf, e, he, hm⟩ | ⟨hf, hok, e, he, hm⟩ | ⟨hf, hok, e, he, hm⟩ |
    ⟨hf, hok, e, he, hm⟩ | ⟨hf, hok, hemp, hm⟩ | ⟨hf, hok, hne, e, he, hm⟩ |
    ⟨hf, hok, hne, hlen, hm⟩ | ⟨hf, hok, hne, hlen, e, line, he, hline, hm⟩ |
    ⟨hf, hok, hne, hlen, e, he, hm⟩ | ⟨hf, hok, hne, hlen, hm⟩
  all_goals rw [hm]
  all_goals simp [course, Call.ord, List.range']

/-- A call that fails is the last call of the run, and the run exits with
status 1. -/
theorem main_failed_call_last (env : Env) (a p u d : Str) (before after : List Call) (c : Call)
    (hcs : (main env a p u d World.start).1.calls = before ++ c :: after)
    (hc : env.failed c = true) :
    after = [] ∧ (main env a p u d World.start).2 = 1 := by
  rcases main_cases env a p u d with
    ⟨hf, hm⟩ | ⟨hf, e, he, hm⟩ | ⟨hf, hok, e, he, hm⟩ | ⟨hf, hok, e, he, hm⟩ |
    ⟨hf, hok, e, he, hm⟩ | ⟨hf, hok, hemp, hm⟩ | ⟨hf, hok, hne, e, he, hm⟩ |
    ⟨hf, hok, hne, hlen, hm⟩ | ⟨hf, hok, hne, hlen, e, line, he, hline, hm⟩ |
    ⟨hf, hok, hne, hlen, e, he, hm⟩ | ⟨hf, hok, hne, hlen, hm⟩
  all_goals rw [hm] at hcs ⊢
  all_goals simp only [and_true]
  · simp at hcs
  · exact failed_is_last env _ 0 (by simp) before after c hcs hc
  · exact failed_is_last env _ 1 hok before after c hcs hc
  · exact failed_is_last env _ 3 hok before after c hcs hc
  · exact failed_is_last env _ 4 hok before after c hcs hc
  · exact (no_failed_call env _ hok before after c hcs hc).elim
  · exact failed_is_last env _ 5 hok before after c hcs hc
  · exact (no_failed_call env _ hok before after c hcs hc).elim
  · exact failed_is_last env _ 6 hok before after c hcs hc
  · exact failed_is_last env _ 7 hok before after c (by simpa [course] using hcs) hc
  · exact (no_failed_call env _ hok before after c hcs hc).elim

/-- When the installation list a run is given is empty, the listing is the
last call of the run, and the run exits with status 1. -/
theorem main_empty_installations (env : Env) (a p u d : Str) (client : Client)
    (hmem : Call.ListInstallations client ∈ (main env a p u d World.start).1.calls)
    (hempty : (env.ListInstallations client).1 = []) :
    (main env a p u d World.start).1.calls.getLast? = some (Call.ListInstallations client) ∧
    (main env a p u d World.start).2 = 1 := by
  rcases main_cases env a p u d with
    ⟨hf, hm⟩ | ⟨hf, e, he, hm⟩ | ⟨hf, hok, e, he, hm⟩ | ⟨hf, hok, e, he, hm⟩ |
    ⟨hf, hok, e, he, hm⟩ | ⟨hf, hok, hemp, hm⟩ | ⟨hf, hok, hne, e, he, hm⟩ |
    ⟨hf, hok, hne, hlen, hm⟩ | ⟨hf, hok, hne, hlen, e, line, he, hline, hm⟩ |
    ⟨hf, hok, hne, hlen, e, he, hm⟩ | ⟨hf, hok, hne, hlen, hm⟩
  all_goals rw [hm] at hmem ⊢
  all_goals simp [course] at hmem
  all_goals subst hmem
  · simp [course]
  · simp [course]
  all_goals exact absurd hempty hne

/-- When the URL is not cut into two parts, neither the repository lookup nor
the clone is called, and the run exits with status 1 unless it ended before. -/
theorem main_bad_format (env : Env) (a p u d : Str)
    (hbad : (Split (TrimPrefix u "https://github.com/".toList) "/".toList).length ≠ 2) :
    (∀ c ∈ (main env a p u d World.start).1.calls, c.ord < 7) ∧
    (main env a p u d World.start).2 = 1 := by
  have hbad0 : (partsOf u).length ≠ 2 := hbad
  rcases main_cases env a p u d with
    ⟨hf, hm⟩ | ⟨hf, e, he, hm⟩ | ⟨hf, hok, e, he, hm⟩ | ⟨hf, hok, e, he, hm⟩ |
    ⟨hf, hok, e, he, hm⟩ | ⟨hf, hok, hemp, hm⟩ | ⟨hf, hok, hne, e, he, hm⟩ |
    ⟨hf, hok, hne, hlen, hm⟩ | ⟨hf, hok, hne, hlen, e, line, he, hline, hm⟩ |
    ⟨hf, hok, hne, hlen, e, he, hm⟩ | ⟨hf, hok, hne, hlen, hm⟩
  all_goals rw [hm]
  all_goals try exact absurd hlen hbad0
  all_goals simp [course, Call.ord]

/-- The line `Repository cloned successfully` is printed exactly by the runs
that exit with status 0. -/
theorem main_success_line (env : Env) (a p u d : Str) :
    "Repository cloned successfully".toList ∈ (main env a p u d World.start).1.stdout ↔
      (main env a p u d World.start).2 = 0 := by
  rcases main_cases env a p u d with
    ⟨hf, hm⟩ | ⟨hf, e, he, hm⟩ | ⟨hf, hok, e, he, hm⟩ | ⟨hf, hok, e, he, hm⟩ |
    ⟨hf, hok, e, he, hm⟩ | ⟨hf, hok, hemp, hm⟩ | ⟨hf, hok, hne, e, he, hm⟩ |
    ⟨hf, hok, hne, hlen, hm⟩ | ⟨hf, hok, hne, hlen, e, line, he, hline, hm⟩ |
    ⟨hf, hok, hne, hlen, e, he, hm⟩ | ⟨hf, hok, hne, hlen, hm⟩
  all_goals rw [hm]
  all_goals simp [detailsOf, clonedSuccessfully]

/-- A run exits with status 0 exactly when no flag is missing, all eight calls
were made, none of them failed, the installation list was not empty and the
URL was cut into two parts. -/
theorem main_exit_zero_iff (env : Env) (a p u d : Str) :
    (main env a p u d World.start).2 = 0 ↔
      (flagMissing a p u d = false ∧
        (main env a p u d World.start).1.calls.length = 8 ∧
        (∀ c ∈ (main env a p u d World.start).1.calls, env.failed c = false) ∧
        (∀ client, Call.ListInstallations client ∈ (main env a p u d World.start).1.calls →
          (env.ListInstallations client).1 ≠ []) ∧
        (Split (TrimPrefix u "https://github.com/".toList) "/".toList).length = 2) := by
  rcases main_cases env a p u d with
    ⟨hf, hm⟩ | ⟨hf, e, he, hm⟩ | ⟨hf, hok, e, he, hm⟩ | ⟨hf, hok, e, he, hm⟩ |
    ⟨hf, hok, e, he, hm⟩ | ⟨hf, hok, hemp, hm⟩ | ⟨hf, hok, hne, e, he, hm⟩ |
    ⟨hf, hok, hne, hlen, hm⟩ | ⟨hf, hok, hne, hlen, e, line, he, hline, hm⟩ |
    ⟨hf, hok, hne, hlen, e, he, hm⟩ | ⟨hf, hok, hne, hlen, hm⟩
  all_goals rw [hm]
  iterate 9 simp [course, hf]
  · constructor
    · intro h
      simp at h
    · rintro ⟨_, _, hall, _⟩
      exfalso
      have hfail : env.failed (.PlainClone d false (cloneOptionsOf env a p u)) = true := by
        simp [Env.failed, he]
      rw [hall _ (by simp [course])] at hfail
      exact Bool.false_ne_true hfail
  · constructor
    · intro _
      refine ⟨hf, by simp [course], hok, ?_, hlen⟩
      intro client hmem
      have hcl : client = appClientOf env a p := by simpa [course] using hmem
      rw [hcl]
      exact hne
    · intro _
      rfl

/-- A run that exits with status 1 has logged a line. -/
theorem main_exit_one_logged (env : Env) (a p u d : Str)
    (h : (main env a p u d World.start).2 = 1) :
    (main env a p u d World.start).1.stderr ≠ [] := by
  rcases main_cases env a p u d with
    ⟨hf, hm⟩ | ⟨hf, e, he, hm⟩ | ⟨hf, hok, e, he, hm⟩ | ⟨hf, hok, e, he, hm⟩ |
    ⟨hf, hok, e, he, hm⟩ | ⟨hf, hok, hemp, hm⟩ | ⟨hf, hok, hne, e, he, hm⟩ |
    ⟨hf, hok, hne, hlen, hm⟩ | ⟨hf, hok, hne, hlen, e, line, he, hline, hm⟩ |
    ⟨hf, hok, hne, hlen, e, he, hm⟩ | ⟨hf, hok, hne, hlen, hm⟩
  all_goals rw [hm] at h ⊢
  all_goals simp at h ⊢

/-- C6: any error ends the run.  With the steps of a run taken as the flag
check and the library calls in the order of the program text (read key, parse
key, clock and sign, list installations, mint token, look up the repository,
clone), for every run:
the exit status is 0 or 1;
the calls made are the first calls of that order, each made once (no step is
skipped, repeated or retried);
a call that fails is the last call, and the exit status is then 1;
a missing flag means no call and exit status 1;
an empty installation list makes the listing the last call, with exit status 1;
a URL that is not cut into two parts means no lookup and no clone, with exit
status 1;
a run with exit status 1 has logged a line;
`Repository cloned successfully` is printed if and only if the exit status is
0, which holds if and only if no flag is missing, all eight calls were made and
none failed, the installation list was not empty and the URL was cut into two
parts. -/
theorem main_aborts_on_first_error (env : Env) (a p u d : Str) :
    ((main env a p u d World.start).2 = 0 ∨ (main env a p u d World.start).2 = 1) ∧
    ((main env a p u d World.start).1.calls.map Call.ord =
      List.range' 1 (main env a p u d World.start).1.calls.length) ∧
    (∀ before c after, (main env a p u d World.start).1.calls = before ++ c :: after →
      env.failed c = true → after = [] ∧ (main env a p u d World.start).2 = 1) ∧
    ((a = [] ∨ p = [] ∨ u = [] ∨ d = []) →
      (main env a p u d World.start).1.calls = [] ∧ (main env a p u d World.start).2 = 1) ∧
    (∀ client, Call.ListInstallations client ∈ (main env a p u d World.start).1.calls →
      (env.ListInstallations client).1 = [] →
      (main env a p u d World.start).1.calls.getLast? = some (Call.ListInstallations client) ∧
      (main env a p u d World.start).2 = 1) ∧
    ((Split (TrimPrefix u "https://github.com/".toList) "/".toList).length ≠ 2 →
      (∀ c ∈ (main env a p u d World.start).1.calls, c.ord < 7) ∧
      (main env a p u d World.start).2 = 1) ∧
    ((main env a p u d World.start).2 = 1 → (main env a p u d World.start).1.stderr ≠ []) ∧
    ("Repository cloned successfully".toList ∈ (main env a p u d World.start).1.stdout ↔
      (main env a p u d World.start).2 = 0) ∧
    ((main env a p u d World.start).2 = 0 ↔
      ((a ≠ [] ∧ p ≠ [] ∧ u ≠ [] ∧ d ≠ []) ∧
        (main env a p u d World.start).1.calls.length = 8 ∧
        (∀ c ∈ (main env a p u d World.start).1.calls, env.failed c = false) ∧
        (∀ client, Call.ListInstallations client ∈ (main env a p u d World.start).1.calls →
          (env.ListInstallations client).1 ≠ []) ∧
        (Split (TrimPrefix u "https://github.com/".toList) "/".toList).length = 2)) := by
  refine ⟨main_exit env a p u d, main_calls_ord env a p u d, ?_, ?_,
    ?_, main_bad_format env a p u d, main_exit_one_logged env a p u d,
    main_success_line env a p u d, ?_⟩
  · intro before c after hcs hc
    exact main_failed_call_last env a p u d before after c hcs hc
  · intro h
    have hf := (flagMissing_iff a p u d).mpr h
    simp [main, hf, World.Fatalf, World.Printf, World.start]
  · intro client hmem hempty
    exact main_empty_installations env a p u d client hmem hempty
  · rw [main_exit_zero_iff env a p u d]
    have hflag : flagMissing a p u d = false ↔ (a ≠ [] ∧ p ≠ [] ∧ u ≠ [] ∧ d ≠ []) := by
      rw [← Bool.not_eq_true, flagMissing_iff]
      simp only [not_or, ne_eq]
    rw [hflag]

/-! ## The token comes before the clone -/

/-- C7: in every run that calls the clone, the installation-token request was
made earlier in the run and returned no error, and the clone is called with
the URL equal to the `repo_url` input, the directory equal to the `clone_dir`
input, the username `x-access-token` and the password equal to the token string
that request returned. -/
theorem main_token_before_clone (env : Env) (a p u d : Str) (path : Str) (isBare : Bool)
    (o : CloneOptions)
    (hclone : Call.PlainClone path isBare o ∈ (main env a p u d World.start).1.calls) :
    ∃ client id before after,
      (main env a p u d World.start).1.calls =
        before ++ Call.CreateInstallationToken client id :: after ∧
      Call.PlainClone path isBare o ∈ after ∧
      (env.CreateInstallationToken client id).2 = none ∧
      o.Auth.Password = InstallationToken.GetToken (env.CreateInstallationToken client id).1 ∧
      o.Auth.Username = "x-access-token".toList ∧
      o.URL = u ∧ path = d ∧ isBare = false := by
  have key : ∀ (hok : ∀ c ∈ (course env a p u d).take 7, env.failed c = false)
      (hmem : Call.PlainClone path isBare o ∈ course env a p u d),
      ∃ client id before after,
        course env a p u d = before ++ Call.CreateInstallationToken client id :: after ∧
        Call.PlainClone path isBare o ∈ after ∧
        (env.CreateInstallationToken client id).2 = none ∧
        o.Auth.Password = InstallationToken.GetToken (env.CreateInstallationToken client id).1 ∧
        o.Auth.Username = "x-access-token".toList ∧
        o.URL = u ∧ path = d ∧ isBare = false := by
    intro hok hmem
    have hT : env.failed (.CreateInstallationToken (appClientOf env a p)
        (installationIDOf env a p)) = false := hok _ (by simp [course])
    have hT2 : (env.CreateInstallationToken (appClientOf env a p)
        (installationIDOf env a p)).2 = none := by
      simpa [Env.failed] using hT
    have hargs : path = d ∧ isBare = false ∧ o = cloneOptionsOf env a p u := by
      simpa [course] using hmem
    obtain ⟨hpath, hbare, hopts⟩ := hargs
    refine ⟨appClientOf env a p, installationIDOf env a p,
      (course env a p u d).take 5, (course env a p u d).drop 6, ?_, ?_, hT2, ?_, ?_, ?_,
      hpath, hbare⟩
    · simp [course]
    · rw [hpath, hbare, hopts]
      simp [course]
    · rw [hopts]
      rfl
    · rw [hopts]
      rfl
    · rw [hopts]
      rfl
  rcases main_cases env a p u d with
    ⟨hf, hm⟩ | ⟨hf, e, he, hm⟩ | ⟨hf, hok, e, he, hm⟩ | ⟨hf, hok, e, he, hm⟩ |
    ⟨hf, hok, e, he, hm⟩ | ⟨hf, hok, hemp, hm⟩ | ⟨hf, hok, hne, e, he, hm⟩ |
    ⟨hf, hok, hne, hlen, hm⟩ | ⟨hf, hok, hne, hlen, e, line, he, hline, hm⟩ |
    ⟨hf, hok, hne, hlen, e, he, hm⟩ | ⟨hf, hok, hne, hlen, hm⟩
  all_goals rw [hm] at hclone ⊢
  · simp at hclone
  · simp [course] at hclone
  · simp [course] at hclone
  · simp [course] at hclone
  · simp [course] at hclone
  · simp [course] at hclone
  · simp [course] at hclone
  · simp [course] at hclone
  · simp [course] at hclone
  · exact key hok hclone
  · exact key (fun c hc => hok c (List.mem_of_mem_take hc)) hclone

/-- C7 on a run in which every call succeeds: the clone is called with the
token `ghs_tok` the token request returned. -/
theorem main_token_before_clone_witness :
    ∃ client id before after,
      (main envAllGood "12345".toList "key.pem".toList "https://github.com/owner/repo.git".toList
        "dir".toList World.start).1.calls =
        before ++ Call.CreateInstallationToken client id :: after ∧
      Call.PlainClone "dir".toList false
        { URL := "https://github.com/owner/repo.git".toList,
          Auth := { Username := "x-access-token".toList, Password := "ghs_tok".toList } } ∈ after ∧
      (envAllGood.CreateInstallationToken client id).2 = none ∧
      "ghs_tok".toList =
        InstallationToken.GetToken (envAllGood.CreateInstallationToken client id).1 ∧
      "x-access-token".toList = "x-access-token".toList ∧
      "https://github.com/owner/repo.git".toList = "https://github.com/owner/repo.git".toList ∧
      "dir".toList = "dir".toList ∧ false = false :=
  main_token_before_clone envAllGood "12345".toList "key.pem".toList
    "https://github.com/owner/repo.git".toList "dir".toList "dir".toList false
    { URL := "https://github.com/owner/repo.git".toList,
      Auth := { Username := "x-access-token".toList, Password := "ghs_tok".toList } }
    (by decide)

/-! ## A malformed URL is found after the token exchange -/

/-- C10: in a run with four non-empty flags in which the key is read, parsed
and signed without error, the installation list is returned without error and
is not empty, and the token request succeeds, a `repo_url` that fails the
format check (no single slash after the prefix is removed) is found only then:
the calls that leave the process are exactly the key-file read, the
installation listing and the token request, in that order; no repository
lookup and no clone is called; the run exits with status 1, its one log line
being the invalid-format error, and prints nothing. -/
theorem main_malformed_url (env : Env) (a p u d : Str)
    (ha : a ≠ []) (hp : p ≠ []) (hu : u ≠ []) (hd : d ≠ [])
    (hread : (env.ReadFile p).2 = none)
    (hparse : (env.ParseRSAPrivateKeyFromPEM (keyOf env p)).2 = none)
    (hsign : (env.SignedString (generateJWTClaims a env.Now) (signKeyOf env p)).2 = none)
    (hlist : (env.ListInstallations (appClientOf env a p)).2 = none)
    (hsome : (env.ListInstallations (appClientOf env a p)).1 ≠ [])
    (htoken : (env.CreateInstallationToken (appClientOf env a p)
      (installationIDOf env a p)).2 = none)
    (hurl : (TrimPrefix u "https://github.com/".toList).count '/' ≠ 1) :
    (main env a p u d World.start).1.calls.filter Call.isOutside =
      [ Call.ReadFile p,
        Call.ListInstallations (appClientOf env a p),
        Call.CreateInstallationToken (appClientOf env a p) (installationIDOf env a p) ] ∧
    (main env a p u d World.start).1.calls =
      [ Call.ReadFile p,
        Call.ParseRSAPrivateKeyFromPEM (keyOf env p),
        Call.Now,
        Call.SignedString (generateJWTClaims a env.Now) (signKeyOf env p),
        Call.ListInstallations (appClientOf env a p),
        Call.CreateInstallationToken (appClientOf env a p) (installationIDOf env a p) ] ∧
    (∀ client owner repo,
      Call.RepositoriesGet client owner repo ∉ (main env a p u d World.start).1.calls) ∧
    (∀ path isBare o, Call.PlainClone path isBare o ∉ (main env a p u d World.start).1.calls) ∧
    (main env a p u d World.start).2 = 1 ∧
    (main env a p u d World.start).1.stderr =
      ["Error accessing repository: invalid repository URL format: ".toList ++ u] ∧
    (main env a p u d World.start).1.stdout = [] := by
  have hbad : (partsOf u).length ≠ 2 := by
    have h := Split_single_length '/' (TrimPrefix u githubPrefix)
    intro h2
    have h3 : (Split (TrimPrefix u githubPrefix) ['/']).length = 2 := h2
    rw [h] at h3
    have h4 : (TrimPrefix u githubPrefix).count '/' = 1 := by omega
    exact hurl h4
  have hflag : flagMissing a p u d = false := by
    rw [← Bool.not_eq_true, flagMissing_iff]
    simp [ha, hp, hu, hd]
  rcases main_cases env a p u d with
    ⟨hf, hm⟩ | ⟨hf, e, he, hm⟩ | ⟨hf, hok, e, he, hm⟩ | ⟨hf, hok, e, he, hm⟩ |
    ⟨hf, hok, e, he, hm⟩ | ⟨hf, hok, hemp, hm⟩ | ⟨hf, hok, hne, e, he, hm⟩ |
    ⟨hf, hok, hne, hlen, hm⟩ | ⟨hf, hok, hne, hlen, e, line, he, hline, hm⟩ |
    ⟨hf, hok, hne, hlen, e, he, hm⟩ | ⟨hf, hok, hne, hlen, hm⟩
  · rw [hflag] at hf
    exact absurd hf (by simp)
  · rw [hread] at he
    exact absurd he (by simp)
  · rw [hparse] at he
    exact absurd he (by simp)
  · rw [hsign] at he
    exact absurd he (by simp)
  · rw [hlist] at he
    exact absurd he (by simp)
  · exact absurd hemp hsome
  · rw [htoken] at he
    exact absurd he (by simp)
  · rw [hm]
    simp [course, Call.isOutside]
  · exact absurd hlen hbad
  · exact absurd hlen hbad
  · exact absurd hlen hbad

/-- An environment in which everything up to the token request succeeds: used
with the URL `https://github.com/owner`, which has no slash left. -/
theorem main_malformed_url_witness :
    (main envAllGood "12345".toList "key.pem".toList "https://github.com/owner".toList
      "dir".toList World.start).1.calls.filter Call.isOutside =
      [ Call.ReadFile "key.pem".toList,
        Call.ListInstallations { AccessToken := "jwt".toList },
        Call.CreateInstallationToken { AccessToken := "jwt".toList } 42 ] ∧
    (main envAllGood "12345".toList "key.pem".toList "https://github.com/owner".toList
      "dir".toList World.start).2 = 1 :=
  have h := main_malformed_url envAllGood "12345".toList "key.pem".toList
    "https://github.com/owner".toList "dir".toList (by decide) (by decide) (by decide)
    (by decide) (by decide) (by decide) (by decide) (by decide) (by decide) (by decide)
    (by decide)
  ⟨h.1, h.2.2.2.2.1⟩

end TokenClone
